import Mathlib

/-!
Verification development for the QUASAR agentic code-assistant backend.

The Python sources are shallowly embedded here:
* `file_tools.py` (workspace-sandboxed file tools) over an explicit
  filesystem model, with Python string semantics (`str.find`, `str.count`,
  slices) reproduced on `List Char`;
* `credentials.py` (`CredentialManager.rotate_credential` and friends);
* `context/manager.py` (`ContextManager`: history, summarisation, budgets);
* `orchestrator.py` (`_LoopDetector` and the streaming agentic loop
  `_agentic_loop_stream`, driven by a script of model outcomes, together
  with the SSE wrapper of `routers/agent.py`).

File contents are modelled as `List Char` (Python code-point strings);
paths are POSIX component lists; `Path.resolve()` is modelled lexically
(no symlinks) and the workspace root is assumed to be an already
canonical absolute path.
-/

namespace Quasar

/-- Scan `hay` for `needle`, carrying the absolute index `i` of the current
position; mirrors the inner loop of CPython `str.find`. -/
def findSubAux (needle : List Char) : List Char → Nat → Option Nat
  | [], i => if needle.isPrefixOf ([] : List Char) then some i else none
  | c :: t, i =>
    if needle.isPrefixOf (c :: t) then some i else findSubAux needle t (i + 1)

/-- Python `hay.find(needle, start)` (`none` for `-1`).  An empty needle is
found at `start` whenever `start ≤ len(hay)`. -/
def pyFindFrom (hay needle : List Char) (start : Nat) : Option Nat :=
  if start ≤ hay.length then findSubAux needle (hay.drop start) start else none

/-- Python `needle in hay` for strings-as-char-lists. -/
def pyContains (hay needle : List Char) : Bool :=
  (pyFindFrom hay needle 0).isSome

/-- Python `pat in s` on `String`s. -/
def pyStrContains (s pat : String) : Bool :=
  pyContains s.data pat.data

/-- Non-overlapping occurrence counting, the inner loop of Python
`str.count` (non-empty needle); `skip` counts characters still covered by
the previous match. -/
def countSubAux (needle : List Char) : List Char → Nat → Nat
  | [], _ => 0
  | _ :: t, skip + 1 => countSubAux needle t skip
  | c :: t, 0 =>
    if needle.isPrefixOf (c :: t) then 1 + countSubAux needle t (needle.length - 1)
    else countSubAux needle t 0

/-- Python `hay.count(needle)`; an empty needle counts `len(hay) + 1`. -/
def countSub (needle hay : List Char) : Nat :=
  if needle.isEmpty then hay.length + 1 else countSubAux needle hay 0

/-- Non-overlapping left-to-right replacement, the inner loop of Python
`str.replace` (non-empty needle); skipped characters belong to the match
just replaced and are dropped. -/
def replaceAllAux (needle repl : List Char) : List Char → Nat → List Char
  | [], _ => []
  | _ :: t, skip + 1 => replaceAllAux needle repl t skip
  | c :: t, 0 =>
    if needle.isPrefixOf (c :: t) then repl ++ replaceAllAux needle repl t (needle.length - 1)
    else c :: replaceAllAux needle repl t 0

/-- Python `hay.replace(needle, repl)` including the empty-needle case
(`"abc".replace("", "-") = "-a-b-c-"`). -/
def replaceAll (hay needle repl : List Char) : List Char :=
  if needle.isEmpty then repl ++ hay.foldr (fun c acc => c :: (repl ++ acc)) []
  else replaceAllAux needle repl hay 0

/-- The `idx`-accumulating loop of `patch_file` locating the n-th
(overlapping) occurrence: `idx = -1; for _ in range(n): idx = content.find(find, idx+1)`. -/
def nthFindLoop (content find : List Char) : Nat → Int → Int
  | 0, idx => idx
  | n + 1, idx =>
    match pyFindFrom content find (idx + 1).toNat with
    | some j => nthFindLoop content find n (Int.ofNat j)
    | none => nthFindLoop content find n (-1)

/-- Python slice endpoint normalisation for `s[:i]` / `s[i:]` (step 1):
negative indices count from the end and everything is clamped to `[0, len]`. -/
def pySliceIdx (len : Nat) (i : Int) : Nat :=
  if i < 0 then (Int.ofNat len + i).toNat else min i.toNat len

/-- Python `s.split(sep)` for a single-character separator; `"" ↦ [""]`. -/
def splitOnChar (sep : Char) : List Char → List (List Char)
  | [] => [[]]
  | c :: t =>
    let r := splitOnChar sep t
    if c = sep then [] :: r
    else
      match r with
      | [] => [[c]]
      | h :: rest => (c :: h) :: rest

/-- Length in bytes of the UTF-8 encoding, Python `len(s.encode("utf-8"))`. -/
def utf8Len (l : List Char) : Nat :=
  l.foldl (fun n c => n + c.utf8Size) 0

/-- Python `s.strip()` (default whitespace stripping). -/
def stripChars (l : List Char) : List Char :=
  ((l.dropWhile Char.isWhitespace).reverse.dropWhile Char.isWhitespace).reverse

/-- Lowercasing a char list, Python `s.lower()`. -/
def lowerChars (l : List Char) : List Char :=
  l.map Char.toLower

/-! Kernel-reducible stand-ins for the position-based core `String`
functions, all working on `String.data`. -/

/-- Python `s.lower()` on `String`. -/
def strLower (s : String) : String :=
  String.mk (lowerChars s.data)

/-- Python `s[:n]` on `String` (character counting, as in Python). -/
def strTake (s : String) (n : Nat) : String :=
  String.mk (s.data.take n)

/-- Python `s.startswith(pre)`. -/
def strStartsWith (s pre : String) : Bool :=
  pre.data.isPrefixOf s.data

/-- Python `s.replace(find, repl)` on `String`. -/
def strReplace (s find repl : String) : String :=
  String.mk (replaceAll s.data find.data repl.data)

/-- Python `sep.join(xs)`. -/
def joinSep (sep : String) (xs : List String) : String :=
  String.mk (List.intercalate sep.data (xs.map String.data))

/-- Lexicographic code-point comparison, Python `a <= b` on strings. -/
def charListLe : List Char → List Char → Bool
  | [], _ => true
  | _ :: _, [] => false
  | a :: as, b :: bs => a < b ∨ (a = b ∧ charListLe as bs)

/-- Python `a <= b` on `String`s. -/
def strLe (a b : String) : Bool :=
  charListLe a.data b.data

/-- Stable insertion of `x` into a sorted list. -/
def insertSorted {α : Type} (le : α → α → Bool) (x : α) : List α → List α
  | [] => [x]
  | y :: t => if le x y then x :: y :: t else y :: insertSorted le x t

/-- Python `sorted(l)` for the total preorder `le` (stable, ascending). -/
def pySorted {α : Type} (le : α → α → Bool) (l : List α) : List α :=
  l.foldr (insertSorted le) []

instance : DecidableEq (Except String (List String))
  | .error x, .error y =>
    if h : x = y then .isTrue (congrArg Except.error h)
    else .isFalse (fun hh => h (Except.error.inj hh))
  | .ok x, .ok y =>
    if h : x = y then .isTrue (congrArg Except.ok h)
    else .isFalse (fun hh => h (Except.ok.inj hh))
  | .error _, .ok _ => .isFalse (fun hh => Except.noConfusion hh)
  | .ok _, .error _ => .isFalse (fun hh => Except.noConfusion hh)

/-! ## Paths and the workspace sandbox (`file_tools.validate_path`) -/

/-- Raw slash components of a POSIX path string. -/
def splitSlash (p : String) : List String :=
  (splitOnChar (Char.ofNat 47) p.data).map String.mk

/-- Python `Path(p).is_absolute()` on POSIX. -/
def isAbsolutePath (p : String) : Bool :=
  strStartsWith p "/"

/-- Lexical path normalisation, the symlink-free core of `Path.resolve()`:
drop empty and `.` components, let `..` pop the previous component (a no-op
at the root). -/
def normalizeComps (cs : List String) : List String :=
  cs.foldl
    (fun acc c =>
      if c = "" ∨ c = "." then acc
      else if c = ".." then acc.dropLast
      else acc ++ [c])
    []

/-- `(workspace / path).resolve()` for a relative `path`, `Path(path).resolve()`
for an absolute one.  `ws` is the workspace as canonical absolute components. -/
def resolveFull (ws : List String) (path : String) : List String :=
  if isAbsolutePath path then normalizeComps (splitSlash path)
  else normalizeComps (ws ++ splitSlash path)

/-- Render canonical absolute components back to a path string. -/
def renderAbs (cs : List String) : String :=
  "/" ++ joinSep "/" cs

/-- `file_tools.validate_path`: reject any argument containing the substring
`..`, resolve, and require the result to stay inside the workspace
(`full_path.relative_to(workspace)`). -/
def validate_path (ws : List String) (path : String) : Except String (List String) :=
  if pyStrContains path ".." then .error "Path traversal (..) not allowed"
  else
    let full := resolveFull ws path
    if ws.isPrefixOf full then .ok full
    else .error ("Path must be within workspace: " ++ renderAbs ws)

/-! ## Language detection (`file_tools.detect_language`) -/

/-- The extension table of `detect_language`. -/
def extMap : List (String × String) :=
  [(".py", "python"), (".js", "javascript"), (".ts", "typescript"),
   (".jsx", "jsx"), (".tsx", "tsx"), (".html", "html"), (".css", "css"),
   (".json", "json"), (".md", "markdown"), (".yaml", "yaml"), (".yml", "yaml"),
   (".xml", "xml"), (".sql", "sql"), (".sh", "bash"), (".ps1", "powershell"),
   (".java", "java"), (".cpp", "cpp"), (".c", "c"), (".go", "go"),
   (".rs", "rust"), (".rb", "ruby"), (".php", "php")]

/-- Index of the last `.` in a file name, Python `name.rfind(".")`. -/
def lastDotIdx (name : List Char) : Option Nat :=
  match name.reverse.findIdx? (fun c => c = Char.ofNat 46) with
  | some j => some (name.length - 1 - j)
  | none => none

/-- Python `PurePath.suffix`: the extension including the dot, empty for
hidden files (leading dot) and trailing dots. -/
def pathSuffix (name : List Char) : String :=
  match lastDotIdx name with
  | some i => if 0 < i ∧ i + 1 < name.length then String.mk (name.drop i) else ""
  | none => ""

/-- Python `PurePath.name` (up to trailing-separator trimming). -/
def pathName (path : String) : String :=
  match ((splitSlash path).filter (fun c => ¬ c = "")).getLast? with
  | some n => if n = "." then "" else n
  | none => ""

/-- `file_tools.detect_language`: map the lower-cased extension through
`extMap`, defaulting to `"text"`. -/
def detect_language (p : String) : String :=
  let ext := String.mk (lowerChars (pathSuffix (pathName p).data).data)
  (((extMap.find? (fun e => e.1 = ext)).map (fun e => e.2)).getD "text")

/-! ## The filesystem model

A filesystem is a flat map from canonical absolute paths (component lists)
to file contents, plus a set of explicitly-present directories; a directory
also exists implicitly as soon as some file lives strictly below it. -/

structure Fs where
  files : List (List String × List Char)
  dirs : List (List String)
deriving DecidableEq, Repr

/-- Content of a regular file, if present. -/
def Fs.lookupFile (fs : Fs) (p : List String) : Option (List Char) :=
  (fs.files.find? (fun e => e.1 = p)).map (fun e => e.2)

/-- Python `Path.is_file()`. -/
def Fs.isFile (fs : Fs) (p : List String) : Bool :=
  (fs.lookupFile p).isSome

/-- Python `Path.is_dir()`: explicitly present, or an ancestor of some file. -/
def Fs.isDir (fs : Fs) (p : List String) : Bool :=
  fs.dirs.contains p ∨ fs.files.any (fun e => ¬ e.1 = p ∧ p.isPrefixOf e.1)

/-- Python `Path.exists()`. -/
def Fs.exists (fs : Fs) (p : List String) : Bool :=
  fs.isFile p ∨ fs.isDir p

/-- `Path.write_text`: insert or overwrite the file at `p`. -/
def Fs.writeFile (fs : Fs) (p : List String) (content : List Char) : Fs :=
  { fs with files := (p, content) :: fs.files.filter (fun e => ¬ e.1 = p) }

/-- `Path.unlink`: drop the file at `p`. -/
def Fs.eraseFile (fs : Fs) (p : List String) : Fs :=
  { fs with files := fs.files.filter (fun e => ¬ e.1 = p) }

/-- `parent.mkdir(parents=True, exist_ok=True)`: record the parent directory. -/
def Fs.mkParents (fs : Fs) (p : List String) : Fs :=
  { fs with dirs := p.dropLast :: fs.dirs }

/-- Does anything (file or directory) live strictly below `p`? -/
def Fs.hasChildren (fs : Fs) (p : List String) : Bool :=
  fs.files.any (fun e => ¬ e.1 = p ∧ p.isPrefixOf e.1) ∨
    fs.dirs.any (fun d => ¬ d = p ∧ p.isPrefixOf d)

/-- `shutil.rmtree` / `rmdir`: remove `p` and everything below it. -/
def Fs.removeTree (fs : Fs) (p : List String) : Fs :=
  { files := fs.files.filter (fun e => ¬ p.isPrefixOf e.1),
    dirs := fs.dirs.filter (fun d => ¬ p.isPrefixOf d) }

/-- `shutil.move` of a whole subtree: re-root every path under `src` at `dst`. -/
def Fs.movePrefix (fs : Fs) (src dst : List String) : Fs :=
  { files := fs.files.map
      (fun e => if src.isPrefixOf e.1 then (dst ++ e.1.drop src.length, e.2) else e),
    dirs := fs.dirs.map
      (fun d => if src.isPrefixOf d then dst ++ d.drop src.length else d) }

/-! ## The file tools (`quasar-cli/.../tools/file_tools.py`)

Each tool returns a structured result mirroring the Python result dict;
every error dict is collapsed into the `err` constructor (message plus the
optional `hint` field).  Mutating tools additionally return the new
filesystem. -/

inductive ToolResult where
  | err (msg : String) (hint : Option String)
  | fileData (content : List Char) (path lang : String) (lines sizeBytes : Nat)
  | largeFile (path lang : String) (lines sizeBytes : Nat) (maxLinesShown : Nat) (hint : String)
  | chunk (content : List Char) (path lang : String)
      (startLine endLine linesInChunk totalLines : Nat)
      (hasMoreBefore hasMoreAfter : Bool)
  | created (path lang : String) (lines sizeBytes : Nat)
  | modified (path : String) (lines sizeBytes : Nat) (backupPath : Option String)
  | patched (path : String) (replacements occurrencesFound : Nat)
  | deleted (path : String) (entryType : String)
  | moved (source destination : String)
  | listing (path : String) (files : List (String × String × Nat))
      (directories : List String) (totalFiles totalDirs : Nat)
      (truncated : Bool) (hint : Option String)
  | searchResults (query pat : String) (found : List (String × Nat × List Char))
      (totalMatches : Nat)
deriving DecidableEq, Repr

/-- Is the result one of the error dicts (`{"error": ...}`)? -/
def ToolResult.isErr : ToolResult → Bool
  | .err _ _ => true
  | _ => false

/-- Python `"\n".join(lines)`. -/
def joinLines (ls : List (List Char)) : List Char :=
  List.intercalate [Char.ofNat 10] ls

/-- The `MAX_LINES` constant of `read_file`. -/
def MAX_LINES : Nat := 2000

/-- `file_tools.read_file`: validate, check existence, then either the full
content or — beyond `MAX_LINES` lines — metadata only (no content field). -/
def read_file (ws : List String) (fs : Fs) (path : String) : ToolResult :=
  match validate_path ws path with
  | .error e => .err e none
  | .ok full =>
    if ¬ fs.exists full then .err ("File not found: " ++ path) none
    else if ¬ fs.isFile full then .err ("Not a file: " ++ path) none
    else
      match fs.lookupFile full with
      | none => .err ("Not a file: " ++ path) none
      | some content =>
        let lines := splitOnChar (Char.ofNat 10) content
        let lineCount := lines.length
        let sizeBytes := utf8Len content
        if lineCount > MAX_LINES then
          .largeFile path (detect_language path) lineCount sizeBytes 0
            ("File has " ++ toString lineCount ++
              " lines. Use read_file_chunk(path, start_line, end_line) to read specific sections. Recommended chunk size: 500 lines.")
        else .fileData content path (detect_language path) lineCount sizeBytes

/-- `file_tools.read_file_chunk`: 1-indexed inclusive line range with the
source's clamping (`start_line < 1 ↦ 1`, `end_line > total ↦ total`). -/
def read_file_chunk (ws : List String) (fs : Fs) (path : String)
    (start_line end_line : Int) : ToolResult :=
  match validate_path ws path with
  | .error e => .err e none
  | .ok full =>
    if ¬ fs.exists full then .err ("File not found: " ++ path) none
    else if ¬ fs.isFile full then .err ("Not a file: " ++ path) none
    else
      match fs.lookupFile full with
      | none => .err ("Not a file: " ++ path) none
      | some content =>
        let lines := splitOnChar (Char.ofNat 10) content
        let totalLines := lines.length
        let s := if start_line < 1 then 1 else start_line
        let e := if end_line > (totalLines : Int) then (totalLines : Int) else end_line
        if s > e then
          .err ("Invalid range: start_line (" ++ toString s ++ ") > end_line (" ++
            toString e ++ ")") none
        else
          let sN := s.toNat
          let eN := e.toNat
          let chunkLines := (lines.drop (sN - 1)).take (eN - (sN - 1))
          let chunkContent := joinLines chunkLines
          .chunk chunkContent path (detect_language path) sN eN chunkLines.length
            totalLines (decide (1 < sN)) (decide (eN < totalLines))

/-- `file_tools.create_file`: refuse to overwrite unless asked, create parent
directories, then write.  Writing over an existing directory raises in
Python and surfaces as the caught-exception error dict. -/
def create_file (ws : List String) (fs : Fs) (path : String) (content : List Char)
    (overwrite : Bool) : ToolResult × Fs :=
  match validate_path ws path with
  | .error e => (.err e none, fs)
  | .ok full =>
    if fs.exists full ∧ ¬ overwrite then
      (.err ("File already exists: " ++ path)
        (some "Use overwrite=True to replace the existing file, or choose a different filename."), fs)
    else
      let fs1 := fs.mkParents full
      if fs1.isDir full then
        (.err "Failed to create file: IsADirectoryError" none, fs1)
      else
        (.created path (detect_language path)
          (splitOnChar (Char.ofNat 10) content).length (utf8Len content),
          fs1.writeFile full content)

/-- Python `with_suffix(suffix + ".bak")`, which amounts to appending
`".bak"` to the file name. -/
def bakPath (full : List String) : List String :=
  full.dropLast ++ [((full.getLast?).getD "") ++ ".bak"]

/-- Relative rendering `str(p.relative_to(workspace))`. -/
def renderRel (ws p : List String) : String :=
  joinSep "/" (p.drop ws.length)

/-- `file_tools.modify_file`: full-content replace of an existing file with
an optional `.bak` backup.  A directory target makes `read_text` raise,
surfacing as the caught-exception error dict. -/
def modify_file (ws : List String) (fs : Fs) (path : String) (content : List Char)
    (create_backup : Bool) : ToolResult × Fs :=
  match validate_path ws path with
  | .error e => (.err e none, fs)
  | .ok full =>
    if ¬ fs.exists full then (.err ("File not found: " ++ path) none, fs)
    else
      match fs.lookupFile full with
      | none => (.err "Failed to modify file: IsADirectoryError" none, fs)
      | some oldContent =>
        let fs1 := if create_backup then fs.writeFile (bakPath full) oldContent else fs
        let fs2 := fs1.writeFile full content
        (.modified path (splitOnChar (Char.ofNat 10) content).length (utf8Len content)
          (if create_backup then some (renderRel ws (bakPath full)) else none), fs2)

/-- `file_tools.patch_file`: find-and-replace with n-th-occurrence semantics
(`occurrence = 0` replaces all); checks `find_text in content` first, then
compares the requested occurrence against the non-overlapping count, and
locates the n-th occurrence with the `find(.., idx+1)` loop. -/
def patch_file (ws : List String) (fs : Fs) (path : String)
    (find_text replace_text : List Char) (occurrence : Int) : ToolResult × Fs :=
  match validate_path ws path with
  | .error e => (.err e none, fs)
  | .ok full =>
    if ¬ fs.exists full then (.err ("File not found: " ++ path) none, fs)
    else
      match fs.lookupFile full with
      | none => (.err "Failed to patch file: IsADirectoryError" none, fs)
      | some content =>
        if ¬ pyContains content find_text then
          (.err "Text not found in file"
            (some "The exact text was not found. Check for extra spaces, newlines, or typos."), fs)
        else
          let count := countSub find_text content
          if occurrence = 0 then
            (.patched path count count, fs.writeFile full (replaceAll content find_text replace_text))
          else if occurrence > (count : Int) then
            (.err ("Only " ++ toString count ++ " occurrence(s) found, requested occurrence " ++
              toString occurrence) none, fs)
          else
            let idx := nthFindLoop content find_text occurrence.toNat (-1)
            let newContent :=
              content.take (pySliceIdx content.length idx) ++ replace_text ++
                content.drop (pySliceIdx content.length (idx + (find_text.length : Int)))
            (.patched path 1 count, fs.writeFile full newContent)

/-- `file_tools.delete_file`: unlink a file; for directories, `rmtree` when
`recursive`, otherwise refuse unless empty. -/
def delete_file (ws : List String) (fs : Fs) (path : String) (recursive : Bool) :
    ToolResult × Fs :=
  match validate_path ws path with
  | .error e => (.err e none, fs)
  | .ok full =>
    if ¬ fs.exists full then (.err ("Path not found: " ++ path) none, fs)
    else if fs.isFile full then (.deleted path "file", fs.eraseFile full)
    else if recursive then (.deleted path "directory", fs.removeTree full)
    else if fs.hasChildren full then
      (.err ("Directory not empty: " ++ path ++ ". Set recursive=True to delete.") none, fs)
    else (.deleted path "directory", fs.removeTree full)

/-- `file_tools.move_file`: validate both endpoints, create the destination
parent, then `shutil.move` (moving *into* an existing destination directory). -/
def move_file (ws : List String) (fs : Fs) (source destination : String) :
    ToolResult × Fs :=
  match validate_path ws source with
  | .error e => (.err ("Source: " ++ e) none, fs)
  | .ok srcFull =>
    if ¬ fs.exists srcFull then (.err ("Source not found: " ++ source) none, fs)
    else
      match validate_path ws destination with
      | .error e => (.err ("Destination: " ++ e) none, fs)
      | .ok dstFull =>
        let fs1 := fs.mkParents dstFull
        let realDst :=
          if fs1.isDir dstFull then dstFull ++ [(srcFull.getLast?).getD ""] else dstFull
        (.moved source destination, fs1.movePrefix srcFull realDst)

/-- Directories skipped by the recursive branch of `list_files`. -/
def listIgnore : List String :=
  [".git", "__pycache__", "node_modules", ".venv", "venv"]

/-- Python `any(part in ignore for part in item.parts)`. -/
def hasIgnoredPart (ignore : List String) (p : List String) : Bool :=
  p.any (fun c => ignore.contains c)

/-- Strictly-below test for paths-as-component-lists. -/
def strictlyUnder (base p : List String) : Bool :=
  ¬ p = base ∧ base.isPrefixOf p

/-- The intermediate directories sitting strictly between `full` and the
file `p` (which exist on disk and are reported by `rglob`). -/
def interDirs (full p : List String) : List (List String) :=
  (List.range (p.length - full.length - 1)).map (fun k => p.take (full.length + 1 + k))

/-- All directories strictly below `full`: explicit ones plus ancestors of
files. -/
def descDirs (fs : Fs) (full : List String) : List (List String) :=
  ((fs.dirs.filter (fun d => strictlyUnder full d)) ++
    (fs.files.filter (fun e => strictlyUnder full e.1)).flatMap
      (fun e => interDirs full e.1)).dedup

/-- The `if len < cap: append else: truncated = True` accumulation of
`list_files`, as a take-plus-overflow-flag. -/
def capAccum {α : Type} (cap : Nat) (xs : List α) : List α × Bool :=
  (xs.take cap, decide (cap < xs.length))

/-- `file_tools.list_files`: bounded listing (100 files / 50 directories),
recursive listing skips `listIgnore` directories, directories are sorted. -/
def list_files (ws : List String) (fs : Fs) (path : String) (recursive : Bool) :
    ToolResult :=
  match validate_path ws path with
  | .error e => .err e none
  | .ok full =>
    if ¬ fs.exists full then .err ("Path not found: " ++ path) none
    else if ¬ fs.isDir full then .err ("Not a directory: " ++ path) none
    else
      let filesAndFlag :=
        if recursive then
          capAccum 100
            (((fs.files.filter
                (fun e => strictlyUnder full e.1 ∧ ¬ hasIgnoredPart listIgnore e.1)).map
              (fun e => (renderRel full e.1, detect_language (renderRel full e.1), utf8Len e.2))))
        else
          capAccum 100
            (((fs.files.filter (fun e => e.1.length = full.length + 1 ∧ full.isPrefixOf e.1)).map
              (fun e =>
                let nm := (e.1.getLast?).getD ""
                (nm, detect_language nm, utf8Len e.2))))
      let dirsAndFlag :=
        if recursive then
          capAccum 50
            (((descDirs fs full).filter (fun d => ¬ hasIgnoredPart listIgnore d)).map
              (fun d => renderRel full d))
        else
          capAccum 50
            ((((fs.dirs.filter (fun d => d.length = full.length + 1 ∧ full.isPrefixOf d)) ++
                fs.files.filterMap
                  (fun e =>
                    if full.isPrefixOf e.1 ∧ full.length + 1 < e.1.length then
                      some (e.1.take (full.length + 1))
                    else none)).dedup).map
              (fun d => (d.getLast?).getD ""))
      let truncated := filesAndFlag.2 ∨ dirsAndFlag.2
      .listing path filesAndFlag.1 (pySorted strLe dirsAndFlag.1)
        filesAndFlag.1.length dirsAndFlag.1.length truncated
        (if truncated then
          some "Results limited to 100 files and 50 directories. Use a more specific path to see more."
        else none)

/-- `fnmatch`-style glob matching over `*` and `?` (character classes are
not used by the tools and are treated literally). -/
def globMatch : List Char → List Char → Bool
  | [], [] => true
  | [], _ :: _ => false
  | c :: pt, s =>
    if c = Char.ofNat 42 then
      globMatch pt s ||
        (match s with
         | [] => false
         | _ :: st => globMatch (c :: pt) st)
    else
      match s with
      | [] => false
      | d :: st => (c = Char.ofNat 63 ∨ c = d) ∧ globMatch pt st
termination_by p s => s.length + p.length
decreasing_by
  · simp only [List.length_cons]
    omega
  · simp only [List.length_cons]
    omega
  · simp only [List.length_cons]
    omega

/-- Directories skipped by `search_files`. -/
def searchIgnore : List String :=
  ["__pycache__", "node_modules", ".git", ".venv"]

/-- `file_tools.search_files`: substring search over all files below `path`
whose name matches the glob `file_pattern`, with 1-based line numbers and
stripped match lines. -/
def search_files (ws : List String) (fs : Fs) (query : List Char)
    (file_pattern : String) (path : String) : ToolResult :=
  match validate_path ws path with
  | .error e => .err e none
  | .ok full =>
    if ¬ fs.exists full then .err ("Path not found: " ++ path) none
    else
      let cand := fs.files.filter
        (fun e => strictlyUnder full e.1 ∧ ¬ hasIgnoredPart searchIgnore e.1 ∧
          globMatch file_pattern.data ((e.1.getLast?).getD "").data)
      let found := cand.flatMap
        (fun e =>
          ((splitOnChar (Char.ofNat 10) e.2).enum.filterMap
            (fun il =>
              if pyContains il.2 query then
                some (renderRel full e.1, il.1 + 1, stripChars il.2)
              else none)))
      .searchResults (String.mk query) file_pattern found found.length

/-! ## Credentials (`models/credentials.py`) -/

structure Credential where
  key : String
  remainingQuota : Nat := 10000
  isActive : Bool := true
deriving DecidableEq, Repr

structure ProviderCredentials where
  currentIndex : Nat := 0
  credentials : List Credential := []
deriving DecidableEq, Repr

/-- The per-provider credential map of `CredentialManager` (after the
user-context override has been resolved by `_get_provider_creds`). -/
abbrev CredStore := List (String × ProviderCredentials)

/-- `_get_provider_creds`. -/
def getProviderCreds (store : CredStore) (provider : String) : Option ProviderCredentials :=
  (store.find? (fun e => e.1 = provider)).map (fun e => e.2)

/-- Replace a provider entry. -/
def setProviderCreds (store : CredStore) (provider : String)
    (pc : ProviderCredentials) : CredStore :=
  store.map (fun e => if e.1 = provider then (e.1, pc) else e)

/-- `CredentialManager.get_credential`: the credential at the cursor, if it
is in range and active. -/
def get_credential (store : CredStore) (provider : String) : Option String :=
  match getProviderCreds store provider with
  | none => none
  | some pc =>
    if pc.credentials.isEmpty then none
    else
      match pc.credentials.get? pc.currentIndex with
      | some c => if c.isActive then some c.key else none
      | none => none

/-- `CredentialManager.rotate_credential`.  Returns `none` when the Python
code raises (`(current + 1) % 0` on an empty credential list); otherwise
`some (rotated?, new store)`.  The current credential is marked inactive,
then the cursor advances to the *immediately next* index only if that
credential is active. -/
def rotate_credential (store : CredStore) (provider : String) :
    Option (Bool × CredStore) :=
  match getProviderCreds store provider with
  | none => some (false, store)
  | some pc =>
    if pc.credentials.length = 0 then none
    else
      let creds1 :=
        match pc.credentials.get? pc.currentIndex with
        | some c => pc.credentials.set pc.currentIndex { c with isActive := false }
        | none => pc.credentials
      let nextIndex := (pc.currentIndex + 1) % pc.credentials.length
      if nextIndex = pc.currentIndex then
        some (false, setProviderCreds store provider { pc with credentials := creds1 })
      else if ((creds1.get? nextIndex).map (fun c => c.isActive)).getD false then
        some (true, setProviderCreds store provider
          { currentIndex := nextIndex, credentials := creds1 })
      else
        some (false, setProviderCreds store provider { pc with credentials := creds1 })

/-- `CredentialManager.is_provider_available`. -/
def is_provider_available (store : CredStore) (provider : String) : Bool :=
  if provider = "ollama" then true
  else
    match getProviderCreds store provider with
    | none => false
    | some pc => pc.credentials.any (fun c => c.isActive)

/-! ## Context manager (`context/manager.py`) -/

structure ConversationMessage where
  role : String
  content : String
  taskType : Option String
deriving DecidableEq, Repr

structure PermanentContext where
  workspacePath : String := ""
  projectType : String := "unknown"
  language : String := "python"
deriving DecidableEq, Repr

structure TaskContext where
  currentFile : Option String := none
  fileContent : Option String := none
  selectedCode : Option String := none
  errorMessage : Option String := none
  terminalOutput : Option String := none
  fileLanguage : String := "text"
deriving DecidableEq, Repr

structure SessionMemory where
  filesCreated : List String := []
  filesModified : List String := []
  errorsEncountered : List String := []
  commandsRun : List String := []
deriving DecidableEq, Repr

structure ContextManager where
  permanent : PermanentContext := {}
  task : TaskContext := {}
  session : SessionMemory := {}
  conversationHistory : List ConversationMessage := []
  conversationSummary : String := ""
  summarizeThreshold : Nat := 5
deriving DecidableEq, Repr

/-- Python truthiness of an optional string (`None` and `""` are falsy). -/
def optTruthy : Option String → Bool
  | some s => ¬ s = ""
  | none => false

/-- One keyword-classification step of `_trigger_summarization` for a
single old message. -/
def summaryPartFor (msg : ConversationMessage) : List String :=
  let cl := strTake (strLower msg.content) 200
  if pyStrContains cl "phase" ∧ (pyStrContains cl "complete" ∨ pyStrContains cl "done") then
    ["Completed phase mentioned in conversation"]
  else if msg.role = "user" ∧ optTruthy msg.taskType then
    if pyStrContains cl "implement" ∨ pyStrContains cl "create" then
      ["User requested implementation/creation"]
    else if pyStrContains cl "fix" ∨ pyStrContains cl "bug" then
      ["User requested bug fix"]
    else if pyStrContains cl "explain" then
      ["User asked for explanation"]
    else []
  else []

/-- Python `l[-n:]` (note `l[-0:]` is the whole list). -/
def takeLastPy {α : Type} (l : List α) (n : Nat) : List α :=
  if n = 0 then l else l.drop (l.length - n)

/-- Python `l[:-n]` (note `l[:-0]` is empty). -/
def dropLastPy {α : Type} (l : List α) (n : Nat) : List α :=
  if n = 0 then [] else l.take (l.length - n)

/-- `ContextManager._trigger_summarization`: compact everything but the
newest `summarize_threshold` messages into a one-line heuristic summary. -/
def triggerSummarization (st : ContextManager) : ContextManager :=
  let oldMessages := dropLastPy st.conversationHistory st.summarizeThreshold
  if oldMessages.isEmpty then st
  else
    let keywordParts := oldMessages.flatMap summaryPartFor
    let activityParts :=
      (if ¬ st.session.filesCreated.isEmpty then
        ["Created: " ++ joinSep ", " (takeLastPy st.session.filesCreated 3)]
      else []) ++
      (if ¬ st.session.filesModified.isEmpty then
        ["Modified: " ++ joinSep ", " (takeLastPy st.session.filesModified 3)]
      else [])
    let userCount := oldMessages.countP (fun m => m.role = "user")
    { st with
      conversationSummary :=
        "Previous " ++ toString userCount ++ " exchanges. " ++
          joinSep "; " ((keywordParts ++ activityParts).take 5),
      conversationHistory := takeLastPy st.conversationHistory st.summarizeThreshold }

/-- `ContextManager.add_message`: append, then summarise once the history
reaches `2 · summarize_threshold` messages. -/
def add_message (st : ContextManager) (role content : String)
    (taskType : Option String) : ContextManager :=
  let st1 := { st with
    conversationHistory := st.conversationHistory ++ [⟨role, content, taskType⟩] }
  if st1.conversationHistory.length ≥ st.summarizeThreshold * 2 then
    triggerSummarization st1
  else st1

/-- A row of the `TOKEN_BUDGETS` table. -/
structure Budget where
  permanent : Nat
  task : Nat
  summary : Nat
  total : Nat
deriving DecidableEq, Repr

/-- The `TOKEN_BUDGETS` table of `context/manager.py`. -/
def TOKEN_BUDGETS : List (String × Budget) :=
  [("chat", ⟨100, 200, 100, 400⟩),
   ("code_explain_simple", ⟨100, 1000, 200, 1300⟩),
   ("code_explain_complex", ⟨100, 2000, 400, 2500⟩),
   ("code_generation", ⟨100, 1500, 300, 1900⟩),
   ("code_generation_multi", ⟨100, 3000, 500, 3600⟩),
   ("bug_fixing", ⟨100, 1500, 300, 1900⟩),
   ("refactor", ⟨100, 2000, 400, 2500⟩),
   ("architecture", ⟨100, 2000, 400, 2500⟩),
   ("test_generation", ⟨100, 1500, 300, 1900⟩),
   ("documentation", ⟨100, 1000, 200, 1300⟩)]

/-- `TOKEN_BUDGETS.get(task_type, TOKEN_BUDGETS["chat"])`. -/
def budgetFor (taskType : String) : Budget :=
  (((TOKEN_BUDGETS.find? (fun e => e.1 = taskType)).map (fun e => e.2)).getD
    ⟨100, 200, 100, 400⟩)

/-- `ContextManager._build_permanent_context` (the `token_limit` parameter
is accepted and ignored by the source). -/
def buildPermanentContext (st : ContextManager) (tokenLimit : Nat) : String :=
  let _ := tokenLimit
  joinSep "\n"
    ((if ¬ st.permanent.workspacePath = "" then
        ["Workspace: " ++ st.permanent.workspacePath] else []) ++
     (if ¬ st.permanent.projectType = "unknown" then
        ["Project: " ++ st.permanent.projectType] else []) ++
     (if ¬ st.permanent.language = "" then
        ["Language: " ++ st.permanent.language] else []))

/-- `ContextManager._build_task_context` (`token_limit` ignored; file
content deliberately omitted by the source). -/
def buildTaskContext (st : ContextManager) (tokenLimit : Nat) : String :=
  let _ := tokenLimit
  joinSep "\n\n"
    ((match st.task.currentFile with
      | some f => if ¬ f = "" then
          ["Current file: " ++ f ++ " (" ++ st.task.fileLanguage ++ ")"] else []
      | none => []) ++
     (match st.task.errorMessage with
      | some e => if ¬ e = "" then ["Error:\n" ++ e] else []
      | none => []) ++
     (match st.task.selectedCode with
      | some c => if ¬ c = "" then ["Selected code:\n```\n" ++ c ++ "\n```"] else []
      | none => []) ++
     (match st.task.terminalOutput with
      | some t => if ¬ t = "" then ["Terminal:\n" ++ t] else []
      | none => []))

/-- `ContextManager._build_summary_context` (`token_limit` ignored). -/
def buildSummaryContext (st : ContextManager) (tokenLimit : Nat) : String :=
  let _ := tokenLimit
  if ¬ st.conversationSummary = "" then "Previous context: " ++ st.conversationSummary
  else ""

/-- `ContextManager._build_session_context`. -/
def buildSessionContext (st : ContextManager) : String :=
  joinSep "\n"
    ((if ¬ st.session.filesCreated.isEmpty then
        ["Files created: " ++ joinSep ", " (takeLastPy st.session.filesCreated 5)]
      else []) ++
     (if ¬ st.session.filesModified.isEmpty then
        ["Files modified: " ++ joinSep ", " (takeLastPy st.session.filesModified 5)]
      else []))

/-- `ContextManager._truncate_code`, which the source reduced to the
identity ("Return full code (no truncation)"). -/
def truncate_code (code : String) (charLimit : Nat) : String :=
  let _ := charLimit
  code

/-- The structured result of `ContextManager.get_context_for_task`. -/
structure TaskContextOut where
  permanent : String
  task : String
  summary : String
  session : String
  tokenBudget : Nat
deriving DecidableEq, Repr

/-- `ContextManager.get_context_for_task`: look up the budget row and build
the four context sections. -/
def get_context_for_task (st : ContextManager) (taskType : String) : TaskContextOut :=
  let budget := budgetFor taskType
  { permanent := buildPermanentContext st budget.permanent,
    task := buildTaskContext st budget.task,
    summary := buildSummaryContext st budget.summary,
    session := buildSessionContext st,
    tokenBudget := budget.total }

/-! ## Orchestrator (`orchestrator.py`): loop detector and streaming loop

The streaming agentic loop is embedded as a deterministic interpreter over
a *script* of model-invocation outcomes.  A script entry either carries the
tool calls the model emitted (each with the executor's result string — the
executor in `executor.py` catches every exception, so tool execution never
raises into the loop), the final text, or an exception message together
with the environment's answers for the recovery path (whether re-fetching
a model after credential rotation succeeds, and which fallback chain
entries can be constructed). -/

/-- Ordering used by Python `sorted(tool_args.items())`. -/
def argLe (a b : String × String) : Bool :=
  a.1 < b.1 ∨ (a.1 = b.1 ∧ a.2 ≤ b.2)

/-- A loop-detector call signature.  Python renders
`f"{tool_name}:{str(sorted(tool_args.items())[:3])}"`; we keep the pair
`(name, first three sorted args)` whose equality coincides with equality of
those rendered strings. -/
structure CallSig where
  tool : String
  keyArgs : List (String × String)
deriving DecidableEq, Repr

/-- Signature construction in `_LoopDetector.add_call`. -/
def callSig (toolName : String) (args : List (String × String)) : CallSig :=
  ⟨toolName, if args.isEmpty then [] else (pySorted argLe args).take 3⟩

structure LoopDetector where
  history : List CallSig := []
  windowSize : Nat := 5
  threshold : Nat := 3
deriving DecidableEq, Repr

/-- `_LoopDetector.add_call`: append and keep only the window. -/
def LoopDetector.addCall (d : LoopDetector) (sig : CallSig) : LoopDetector :=
  let h := d.history ++ [sig]
  { d with history := if h.length > d.windowSize then h.drop 1 else h }

/-- `_LoopDetector.is_looping`: fewer than `threshold` entries never loop;
otherwise the last `threshold` entries must all be identical
(`len(set(recent)) == 1`). -/
def LoopDetector.isLooping (d : LoopDetector) : Bool :=
  if d.history.length < d.threshold then false
  else (takeLastPy d.history d.threshold).dedup.length = 1

/-- Python `args.get("path", args.get("file_path", ""))`. -/
def argGet (args : List (String × String)) (k : String) : Option String :=
  (args.find? (fun e => e.1 = k)).map (fun e => e.2)

/-- The path-extraction prelude shared by `_get_progress_message` and
`_generate_observation`: take the `path`/`file_path` argument and keep the
final component. -/
def progressPath (args : List (String × String)) : String :=
  let p := (argGet args "path").getD ((argGet args "file_path").getD "")
  if p = "" then ""
  else ((splitSlash (strReplace p "\\" "/")).getLast?).getD ""

/-- `orchestrator._get_progress_message`. -/
def getProgressMessage (toolName : String) (args : List (String × String)) : String :=
  let path := progressPath args
  if toolName = "read_file" then "Reading `" ++ path ++ "`..."
  else if toolName = "create_file" then "Creating `" ++ path ++ "`..."
  else if toolName = "modify_file" then "Modifying `" ++ path ++ "`..."
  else if toolName = "delete_file" then "Deleting `" ++ path ++ "`..."
  else if toolName = "list_files" then "Scanning directory structure..."
  else if toolName = "search_code" then "Searching for pattern in codebase..."
  else if toolName = "run_terminal_command" then "Running command..."
  else "Executing " ++ toolName ++ "..."

/-- The error-pattern test of `_generate_observation` on the first 200
characters of the lower-cased result. -/
def obsIsError (resultStart : String) : Bool :=
  strStartsWith resultStart "error:" ∨ strStartsWith resultStart "error -" ∨
    pyStrContains resultStart "filenotfounderror" ∨
    pyStrContains resultStart "does not exist" ∨
    pyStrContains resultStart "no such file" ∨
    pyStrContains resultStart "failed:" ∨
    pyStrContains resultStart "permission denied"

/-- `orchestrator._generate_observation`. -/
def generateObservation (toolName : String) (args : List (String × String))
    (result : String) : Option String :=
  let resultLower := strLower result
  let resultStart := strLower (strTake result 200)
  let path := progressPath args
  if obsIsError resultStart then
    if toolName = "read_file" then
      some ("⚠️ `" ++ path ++ "` not found. Let me search for similar files...")
    else if toolName = "run_terminal_command" then
      some "⚠️ Command failed. Let me check the error and try a fix..."
    else if toolName = "list_files" then
      some "⚠️ Could not list directory. Checking permissions..."
    else some ("⚠️ " ++ toolName ++ " encountered an issue. Adjusting approach...")
  else if toolName = "read_file" then none
  else if toolName = "list_files" then
    some "✓ Found the directory structure. Looking for relevant files..."
  else if toolName = "create_file" then
    some ("✓ Created `" ++ path ++ "` successfully.")
  else if toolName = "modify_file" then
    some ("✓ Updated `" ++ path ++ "` with the changes.")
  else if toolName = "delete_file" then
    some ("✓ Deleted `" ++ path ++ "`.")
  else if toolName = "run_terminal_command" then
    if pyStrContains resultLower "exit_code\": 0" ∨
        pyStrContains resultLower "exit code: 0" ∨
        pyStrContains resultLower "\"success\": true" then
      some "✓ Command completed successfully."
    else none
  else none

/-- The SSE event sum (`{type: ...}` dicts of the streaming orchestrator). -/
inductive StreamEvent where
  | classification (taskType : String)
  | iteration (current maxIter remaining : Nat)
  | iterationWarning (remaining : Nat)
  | message (content : String)
  | toolStart (tool : String) (args : List (String × String))
  | toolComplete (tool : String) (result : String)
  | fileTreeUpdated
  | token (content : String)
  | done (model provider taskType : String) (iterations toolCallsCount : Nat)
      (toolsUsed : List String) (loopDetected maxIterationsReached : Bool)
  | error (message : String)
deriving DecidableEq, Repr

/-- A tool call as scripted model output: name, args, and the content of
the `ToolMessage` the executor produces for it (the executor catches all
exceptions, so there is always such a string). -/
structure ScriptToolCall where
  name : String
  args : List (String × String)
  result : String
deriving DecidableEq, Repr

/-- One model-invocation outcome, with the environment answers consumed by
the rate-limit recovery path of `_agentic_loop_stream`. -/
inductive ModelOutcome where
  | toolCalls (calls : List ScriptToolCall)
  | finalText (content : String)
  | exn (msg : String) (freshFetchOk : Bool) (fallbackFetchOk : List Bool)
deriving DecidableEq, Repr

/-- Static data of one `_agentic_loop_stream` run. -/
structure LoopEnv where
  maxIterations : Nat := 30
  taskType : String
  modelsChain : List (String × String)
  pinned : Option (String × String)
  resolveName : String → String → String

/-- Mutable data of one `_agentic_loop_stream` run. -/
structure LoopState where
  iteration : Nat := 0
  creds : CredStore
  detector : LoopDetector := {}
  executedNames : List String := []
  provider : String
  modelName : String

/-- `tool_executor.get_execution_summary()`-backed `done` event. -/
def doneEvent (st : LoopState) (env : LoopEnv) (iteration : Nat)
    (loopDetected maxReached : Bool) : StreamEvent :=
  .done st.modelName st.provider env.taskType iteration st.executedNames.length
    st.executedNames.dedup loopDetected maxReached

/-- The `file_modifying_tools` list guarding `file_tree_updated`. -/
def fileModifyingTools : List String :=
  ["create_file", "delete_file", "modify_file", "move_file", "rename_file"]

/-- Sequential per-call processing of one batch of tool calls inside an
iteration: loop-detector check *before* `tool_start`, then progress
message, `tool_start`, execution, `tool_complete`, optional observation,
optional `file_tree_updated`.  The returned flag says whether the loop was
detected (events then already end in the `done(loop_detected=true)`). -/
def processCalls (env : LoopEnv) (iteration : Nat) :
    List ScriptToolCall → LoopState → List StreamEvent × LoopState × Bool
  | [], st => ([], st, false)
  | c :: rest, st =>
    let st1 := { st with detector := st.detector.addCall (callSig c.name c.args) }
    if st1.detector.isLooping then
      ([.message "⚠️ Detected repetitive actions. Stopping to avoid infinite loop.",
        doneEvent st1 env iteration true false], st1, true)
    else
      let st2 := { st1 with executedNames := st1.executedNames ++ [c.name] }
      let evs :=
        [.message (getProgressMessage c.name c.args), .toolStart c.name c.args,
         .toolComplete c.name c.result] ++
        (match generateObservation c.name c.args c.result with
         | some o => [StreamEvent.message o]
         | none => []) ++
        (if fileModifyingTools.contains c.name then [StreamEvent.fileTreeUpdated] else [])
      let r := processCalls env iteration rest st2
      (evs ++ r.1, r.2.1, r.2.2)

/-- Fuel-indexed worker for `chunkTokens` (the fuel bounds the number of
chunks; `l.length` is always enough). -/
def chunkTokensGo : Nat → List Char → List StreamEvent
  | 0, _ => []
  | _ + 1, [] => []
  | fuel + 1, c :: t =>
    .token (String.mk ((c :: t).take 10)) :: chunkTokensGo fuel ((c :: t).drop 10)

/-- Final-text streaming in 10-character chunks (`range(0, len(content), 10)`). -/
def chunkTokens (l : List Char) : List StreamEvent :=
  chunkTokensGo l.length l

/-- The rate-limit test of the except-branch:
`"429" in s or "rate limit" in s.lower() or "quota" in s.lower()`. -/
def isRateLimitMsg (msg : String) : Bool :=
  pyStrContains msg "429" ∨ pyStrContains (strLower msg) "rate limit" ∨
    pyStrContains (strLower msg) "quota"

/-- Outcome of the rate-limit recovery path. -/
inductive RLResult where
  | retry (events : List StreamEvent) (st : LoopState)
  | halt (events : List StreamEvent)
  | crashed

/-- The fallback walk `for fallback_idx in range(1, len(models_chain))`:
announce each switch, stop at the first chain entry that can be
constructed; exhausting the chain yields the terminal error event. -/
def fallbackScan (env : LoopEnv) (st : LoopState) (oracle : List Bool) :
    List (String × String) → Nat → List StreamEvent × Option LoopState
  | [], _ =>
    ([.error "Rate limit exceeded on all providers. Please wait and try again."], none)
  | (p, k) :: rest, i =>
    let evs := [StreamEvent.message ("⚠️ Switching to " ++ p ++ "...")]
    if oracle.getD i false then
      let name := env.resolveName p k
      (evs ++ [.message ("✓ Using " ++ p ++ "/" ++ name)],
        some { st with provider := p, modelName := name })
    else
      let r := fallbackScan env st oracle rest (i + 1)
      (evs ++ r.1, r.2)

/-- The rotation announcement preceding every non-crashing rate-limit
outcome (emitted exactly when `rotate_credential` reported success). -/
def rotEvs (st : LoopState) (rotated : Bool) : List StreamEvent :=
  if rotated then
    [StreamEvent.message ("⚠️ Rate limit hit. Trying next API key for " ++
      st.provider ++ "...")]
  else []

/-- The except-branch of `_agentic_loop_stream` for a rate-limit error:
rotate within the current provider first (a raise there — empty credential
list — aborts the generator); on successful rotation and model re-fetch,
retry the same iteration; otherwise fall back across the chain in Auto
mode, or emit the terminal pinned-model error. -/
def handleRateLimit (env : LoopEnv) (st : LoopState) (msg : String)
    (freshFetchOk : Bool) (fallbackOk : List Bool) : RLResult :=
  match rotate_credential st.creds st.provider with
  | none => .crashed
  | some rc =>
    let st1 := { st with creds := rc.2 }
    if rc.1 ∧ freshFetchOk then
      .retry (rotEvs st rc.1 ++ [.message ("✓ Using next API key for " ++ st.provider)]) st1
    else
      match env.pinned with
      | some _ =>
        .halt (rotEvs st rc.1 ++ [.error ("Rate limit exceeded for your selected model (" ++
          st.provider ++ "). Please try another model or wait.")])
      | none =>
        if env.modelsChain.length > 1 then
          let r := fallbackScan env st1 fallbackOk (env.modelsChain.drop 1) 0
          match r.2 with
          | some st2 => .retry (rotEvs st rc.1 ++ r.1) st2
          | none => .halt (rotEvs st rc.1 ++ r.1)
        else
          .halt (rotEvs st rc.1 ++ [.error ("Rate limit exceeded: " ++ strTake msg 100)])

/-- How a modelled run ends. -/
inductive RunEnd where
  | finished
  | crashed
  | outOfScript
deriving DecidableEq, Repr

/-- The `iteration` progress event(s) opening iteration `it`, including the
warning when only one iteration remains. -/
def iterEvents (env : LoopEnv) (it : Nat) : List StreamEvent :=
  [StreamEvent.iteration it env.maxIterations (env.maxIterations - it)] ++
    (if env.maxIterations - it = 1 then [StreamEvent.iterationWarning 1] else [])

/-- The streaming agentic loop `_agentic_loop_stream`, one script entry per
model invocation.  `crashed` marks the generator aborting with an uncaught
exception; `outOfScript` marks a run longer than the supplied script. -/
def runLoop (env : LoopEnv) : List ModelOutcome → LoopState → List StreamEvent × RunEnd
  | script, st =>
    if st.iteration ≥ env.maxIterations then
      ([doneEvent st env st.iteration false true], .finished)
    else
      match script with
      | [] => ([], .outOfScript)
      | outcome :: rest =>
        let it := st.iteration + 1
        let preEvs := iterEvents env it
        match outcome with
        | .finalText content =>
          (preEvs ++ chunkTokens content.data ++
            [doneEvent { st with iteration := it } env it false false], .finished)
        | .toolCalls calls =>
          let r := processCalls env it calls { st with iteration := it }
          if r.2.2 then (preEvs ++ r.1, .finished)
          else
            let r2 := runLoop env rest r.2.1
            (preEvs ++ r.1 ++ r2.1, r2.2)
        | .exn msg ffo fbo =>
          if isRateLimitMsg msg then
            match handleRateLimit env st msg ffo fbo with
            | .crashed => (preEvs, .crashed)
            | .halt evs => (preEvs ++ evs, .finished)
            | .retry evs st2 =>
              let r2 := runLoop env rest st2
              (preEvs ++ evs ++ r2.1, r2.2)
          else (preEvs ++ [.error msg], .finished)

/-- The SSE stream a client of `/chat/stream` observes for a tool-enabled
request: the `classification` event from `process_stream`, the loop
events, and — per the `event_generator` wrapper in `routers/agent.py` —
a final `error` event when the generator aborts with an exception.  The
boolean records whether the script covered the whole run. -/
def sseStream (env : LoopEnv) (script : List ModelOutcome) (st : LoopState) :
    List StreamEvent × Bool :=
  let r := runLoop env script st
  match r.2 with
  | .finished => (StreamEvent.classification env.taskType :: r.1, true)
  | .crashed =>
    (StreamEvent.classification env.taskType :: r.1 ++
      [.error "integer division or modulo by zero"], true)
  | .outOfScript => (StreamEvent.classification env.taskType :: r.1, false)

/-! ## Event-sequence observables -/

/-- Event classifiers for the temporal properties. -/
def isToolStartEv : StreamEvent → Bool
  | .toolStart _ _ => true
  | _ => false

def isToolCompleteEv : StreamEvent → Bool
  | .toolComplete _ _ => true
  | _ => false

def isDoneEv : StreamEvent → Bool
  | .done _ _ _ _ _ _ _ _ => true
  | _ => false

def isErrorEv : StreamEvent → Bool
  | .error _ => true
  | _ => false

/-- A `done` event carrying `loop_detected = true`. -/
def isLoopDoneEv : StreamEvent → Bool
  | .done _ _ _ _ _ _ ld _ => ld
  | _ => false

/-- The subsequence of tool lifecycle events. -/
def toolEvents (evs : List StreamEvent) : List StreamEvent :=
  evs.filter (fun e => isToolStartEv e ∨ isToolCompleteEv e)

/-- The tool lifecycle subsequence alternates `tool_start t` directly
followed by `tool_complete t` for the same tool. -/
def wellPaired : List StreamEvent → Bool
  | [] => true
  | .toolStart t _ :: .toolComplete t' _ :: rest => t = t' ∧ wellPaired rest
  | _ => false

/-- The last event is `done` or `error`. -/
def endsDoneOrError (evs : List StreamEvent) : Bool :=
  match evs.getLast? with
  | some e => isDoneEv e ∨ isErrorEv e
  | none => false

/-- A fresh detector fed a sequence of signatures. -/
def runDetector (sigs : List CallSig) : LoopDetector :=
  sigs.foldl LoopDetector.addCall {}

/-! ## Concrete instances used to exercise the orchestrator theorems -/

/-- A single-provider Auto-mode environment. -/
def c2Env : LoopEnv := ⟨30, "general", [("gemini", "pro")], none, fun _ k => k⟩

/-- A fresh loop state bound to that provider. -/
def c2St : LoopState := ⟨0, [], {}, [], "gemini", "gemini-pro"⟩

/-- A two-invocation script: one failing tool call, then a final answer. -/
def c2Script : List ModelOutcome :=
  [.toolCalls [⟨"read_file", [("path", "a.txt")], "Error: file does not exist"⟩],
   .finalText "done"]

/-- A two-provider Auto-mode environment. -/
def c3Env : LoopEnv :=
  ⟨30, "general", [("gemini", "pro"), ("groq", "llama")], none, fun _ k => k⟩

/-- A state holding two active gemini credentials, cursor at the first. -/
def c3St : LoopState :=
  ⟨0, [("gemini", ⟨0, [⟨"k1", 10000, true⟩, ⟨"k2", 10000, true⟩]⟩)], {}, [],
   "gemini", "gemini-pro"⟩

/-- The store after a successful rotation: first key disabled, cursor on the
second. -/
def c3CredsRot : CredStore :=
  [("gemini", ⟨1, [⟨"k1", 10000, false⟩, ⟨"k2", 10000, true⟩]⟩)]

/-- A concrete tool-call signature. -/
def c6Sig : CallSig := ⟨"read_file", [("path", "a")]⟩

/-- A state whose detector has already seen the same signature twice. -/
def c6St : LoopState := ⟨1, [], ⟨[c6Sig, c6Sig], 5, 3⟩, [], "gemini", "gemini-pro"⟩

/-- A context-manager state whose selected-code alone exceeds the 200
character `task` allowance of the `chat` budget row. -/
def c9State : ContextManager :=
  { task := { selectedCode := some (String.mk (List.replicate 300 'x')) } }

/-- C4 counterexample store: cursor on an active credential, the next one
inactive, a later one still active. -/
def c4Store : CredStore :=
  [("p", ⟨0, [⟨"A", 10000, true⟩, ⟨"B", 10000, false⟩, ⟨"C", 10000, true⟩]⟩)]

/-- Every successful chunk result reports `has_more_before = (start > 1)`
and `has_more_after = (end < total)` on the clamped bounds it returns. -/
def chunkFlagsOk : ToolResult → Prop
  | .chunk _ _ _ s e _ t hb ha => hb = decide (1 < s) ∧ ha = decide (e < t)
  | _ => True

/-! ## Helper lemmas -/

lemma data_append (a b : String) : (a ++ b).data = a.data ++ b.data := rfl

lemma ne_empty_of_append_left (a b : String) (h : ¬ a = "") : ¬ (a ++ b) = "" := by
  intro hab
  apply h
  have hd : a.data ++ b.data = ([] : List Char) := by
    have := congrArg String.data hab
    simpa [data_append] using this
  rcases List.append_eq_nil.mp hd with ⟨ha, _⟩
  cases a
  simp_all

lemma Fs.isFile_of_lookup {fs : Fs} {p : List String} {c : List Char}
    (h : fs.lookupFile p = some c) : fs.isFile p = true := by
  simp [Fs.isFile, h]

lemma Fs.exists_of_lookup {fs : Fs} {p : List String} {c : List Char}
    (h : fs.lookupFile p = some c) : fs.exists p = true := by
  simp [Fs.exists, Fs.isFile_of_lookup h]

lemma validate_path_of_bad {ws : List String} {p : String}
    (h : pyStrContains p ".." = true ∨ ¬ ws.isPrefixOf (resolveFull ws p)) :
    ∃ e, validate_path ws p = .error e := by
  unfold validate_path
  rcases h with h | h
  · exact ⟨"Path traversal (..) not allowed", by simp [h]⟩
  · by_cases hc : pyStrContains p ".." = true
    · exact ⟨"Path traversal (..) not allowed", by simp [hc]⟩
    · refine ⟨"Path must be within workspace: " ++ renderAbs ws, ?_⟩
      simp only [hc]
      simp only [Bool.false_eq_true, if_false]
      rw [if_neg (by simpa using h)]

lemma validate_path_ok_prefix {ws : List String} {q : String} {full : List String}
    (h : validate_path ws q = .ok full) : ws.isPrefixOf full = true := by
  unfold validate_path at h
  by_cases hc : pyStrContains q ".." = true
  · simp [hc] at h
  · simp only [hc, Bool.false_eq_true, if_false] at h
    by_cases hp : ws.isPrefixOf (resolveFull ws q) = true
    · rw [if_pos hp] at h
      cases h
      exact hp
    · rw [if_neg hp] at h
      cases h

/-! ## Claim C9: context budgets -/

set_option maxRecDepth 4000 in
/-- C9 counterexample: for the `chat` task type the budget table allows 200
characters of task context, yet `get_context_for_task` returns a task
section of 323 characters — identical to the untruncated builder output at
any limit — so the per-task character allowances are not respected and no
oldest-first truncation happens. -/
theorem c9_budget_cex :
    (budgetFor "chat").task = 200 ∧
    200 < ((get_context_for_task c9State "chat").task).length ∧
    (get_context_for_task c9State "chat").task = buildTaskContext c9State 0 := by
  refine ⟨by decide, ?_, rfl⟩
  decide

/-- C9 (amended): `get_context_for_task` looks up the per-task budget row
(defaulting to `chat`) but uses it only for the reported `token_budget`
field: every context section is produced without any truncation — the
output is independent of the budget row and of every character limit — and
in particular the permanent section is never truncated. -/
theorem c9_no_truncation (st : ContextManager) (tt tt' : String) :
    (get_context_for_task st tt).permanent = (get_context_for_task st tt').permanent ∧
    (get_context_for_task st tt).task = (get_context_for_task st tt').task ∧
    (get_context_for_task st tt).summary = (get_context_for_task st tt').summary ∧
    (get_context_for_task st tt).session = (get_context_for_task st tt').session ∧
    (get_context_for_task st tt).tokenBudget = (budgetFor tt).total ∧
    (∀ lim lim', buildPermanentContext st lim = buildPermanentContext st lim' ∧
      buildTaskContext st lim = buildTaskContext st lim' ∧
      buildSummaryContext st lim = buildSummaryContext st lim' ∧
      truncate_code (buildPermanentContext st lim) lim' = buildPermanentContext st lim) :=
  ⟨rfl, rfl, rfl, rfl, rfl, fun _ _ => ⟨rfl, rfl, rfl, rfl⟩⟩

/-! ## Claim C4: credential rotation -/

/-- C4 counterexample: `rotate_credential` returns `false` on `c4Store`
although after marking the current credential inactive an active
credential (`C`) remains in the provider's list — refuting "returns false
exactly when no active credential remains" (and it did not advance the
cursor to that next active credential). -/
theorem c4_rotate_cex :
    rotate_credential c4Store "p" =
      some (false,
        [("p", ⟨0, [⟨"A", 10000, false⟩, ⟨"B", 10000, false⟩, ⟨"C", 10000, true⟩]⟩)]) ∧
    ([⟨"A", 10000, false⟩, ⟨"B", 10000, false⟩, (⟨"C", 10000, true⟩ : Credential)].any
      (fun c => c.isActive)) = true := by
  constructor
  · decide
  · decide

lemma getProviderCreds_set (store : CredStore) (p : String)
    (pc x : ProviderCredentials) (h : getProviderCreds store p = some pc) :
    getProviderCreds (setProviderCreds store p x) p = some x := by
  induction store with
  | nil => simp [getProviderCreds] at h
  | cons e rest ih =>
    by_cases he : e.1 = p
    · simp [getProviderCreds, setProviderCreds, he]
    · unfold getProviderCreds at h
      unfold getProviderCreds setProviderCreds
      simp only [List.map_cons, if_neg he]
      rw [List.find?_cons_of_neg _ (by simp [he])] at h
      rw [List.find?_cons_of_neg _ (by simp [he])]
      exact ih h

lemma list_get?_set_self {α : Type} (l : List α) (i : Nat) (a : α) (h : i < l.length) :
    (l.set i a).get? i = some a := by
  induction l generalizing i with
  | nil => simp at h
  | cons x t ih =>
    cases i with
    | zero => simp
    | succ j =>
      simp only [List.set_cons_succ, List.get?_cons_succ]
      exact ih j (by simpa using h)

lemma list_get?_set_ne {α : Type} (l : List α) (i j : Nat) (a : α) (h : ¬ i = j) :
    (l.set i a).get? j = l.get? j := by
  induction l generalizing i j with
  | nil => simp
  | cons x t ih =>
    cases i with
    | zero =>
      cases j with
      | zero => exact absurd rfl h
      | succ k => simp
    | succ i' =>
      cases j with
      | zero => simp
      | succ k =>
        simp only [List.set_cons_succ, List.get?_cons_succ]
        exact ih i' k (fun hh => h (by rw [hh]))

lemma next_ne_of_two_le {i n : Nat} (hi : i < n) (hn : 2 ≤ n) : ¬ (i + 1) % n = i := by
  intro h
  rcases Nat.lt_or_ge (i + 1) n with hlt | hge
  · rw [Nat.mod_eq_of_lt hlt] at h
    omega
  · have hin : i + 1 = n := by omega
    rw [hin, Nat.mod_self] at h
    omega

lemma next_eq_iff_one {i n : Nat} (hi : i < n) : (i + 1) % n = i ↔ n = 1 := by
  constructor
  · intro h
    by_contra hne
    have hn : 2 ≤ n := by omega
    exact next_ne_of_two_le hi hn h
  · intro h
    subst h
    omega

/-- C4 (amended): `rotate_credential` marks the credential at the cursor
inactive and advances the cursor by exactly one position (cyclically),
returning true precisely when the provider holds at least two credentials
and that immediately-next credential is active; otherwise the cursor stays
put and it returns false — even when an active credential remains further
along the list (see the counterexample). -/
theorem c4_rotate_amended (store : CredStore) (provider : String)
    (pc : ProviderCredentials)
    (hpc : getProviderCreds store provider = some pc)
    (hne : ¬ pc.credentials = [])
    (hidx : pc.currentIndex < pc.credentials.length) :
    ∃ b store', rotate_credential store provider = some (b, store') ∧
      (∃ pc', getProviderCreds store' provider = some pc' ∧
        (pc'.credentials.get? pc.currentIndex).map (fun c => c.isActive) = some false ∧
        pc'.currentIndex =
          (if b then (pc.currentIndex + 1) % pc.credentials.length else pc.currentIndex) ∧
        pc'.credentials.length = pc.credentials.length) ∧
      (b = true ↔ 2 ≤ pc.credentials.length ∧
        ((pc.credentials.get? ((pc.currentIndex + 1) % pc.credentials.length)).map
          (fun c => c.isActive)).getD false = true) := by
  have hlen : ¬ pc.credentials.length = 0 := by
    simpa [List.length_eq_zero] using hne
  obtain ⟨c, hc⟩ : ∃ c, pc.credentials.get? pc.currentIndex = some c :=
    ⟨pc.credentials.get ⟨pc.currentIndex, hidx⟩, List.get?_eq_get hidx⟩
  unfold rotate_credential
  rw [hpc]
  simp only [hlen, if_false, hc]
  set i := pc.currentIndex with hi
  set n := pc.credentials.length with hn
  set creds1 := pc.credentials.set i { c with isActive := false } with hcreds1
  have hget_i : creds1.get? i = some { c with isActive := false } :=
    list_get?_set_self _ _ _ (by omega)
  by_cases hnext : (i + 1) % n = i
  · rw [if_pos hnext]
    have hn1 : n = 1 := (next_eq_iff_one hidx).mp hnext
    refine ⟨false, _, rfl, ⟨{ pc with credentials := creds1 }, ?_, ?_, ?_, ?_⟩, ?_⟩
    · exact getProviderCreds_set store provider pc _ hpc
    · show (creds1.get? i).map (fun c => c.isActive) = some false
      rw [hget_i]
      rfl
    · simp
    · simp [hcreds1]
    · simp only [Bool.false_eq_true, false_iff]
      intro hcontra
      omega
  · rw [if_neg hnext]
    have hne2 : 2 ≤ n := by
      by_contra hcon
      exact hnext ((next_eq_iff_one hidx).mpr (by omega))
    have hget_next : creds1.get? ((i + 1) % n) = pc.credentials.get? ((i + 1) % n) :=
      list_get?_set_ne _ _ _ _ (fun hh => hnext hh.symm)
    by_cases hact :
        ((creds1.get? ((i + 1) % n)).map (fun c => c.isActive)).getD false = true
    · rw [if_pos hact]
      refine ⟨true, _, rfl, ⟨⟨(i + 1) % n, creds1⟩, ?_, ?_, ?_, ?_⟩, ?_⟩
      · exact getProviderCreds_set store provider pc _ hpc
      · show (creds1.get? i).map (fun c => c.isActive) = some false
        rw [hget_i]
        rfl
      · simp
      · simp [hcreds1]
      · simp only [true_iff]
        exact ⟨hne2, by rw [← hget_next]; exact hact⟩
    · rw [if_neg hact]
      refine ⟨false, _, rfl, ⟨{ pc with credentials := creds1 }, ?_, ?_, ?_, ?_⟩, ?_⟩
      · exact getProviderCreds_set store provider pc _ hpc
      · show (creds1.get? i).map (fun c => c.isActive) = some false
        rw [hget_i]
        rfl
      · simp
      · simp [hcreds1]
      · simp only [Bool.false_eq_true, false_iff]
        intro hcontra
        exact hact (by rw [hget_next]; exact hcontra.2)

/-- C4 amended-theorem witness at a concrete two-credential store: rotation
succeeds, marks `A` inactive and moves the cursor to the active `B`. -/
theorem c4_rotate_witness :
    ∃ b store', rotate_credential [("p", ⟨0, [⟨"A", 10000, true⟩, ⟨"B", 10000, true⟩]⟩)] "p" =
        some (b, store') ∧
      (∃ pc', getProviderCreds store' "p" = some pc' ∧
        (pc'.credentials.get? 0).map (fun c => c.isActive) = some false ∧
        pc'.currentIndex = (if b then (0 + 1) % 2 else 0) ∧
        pc'.credentials.length = 2) ∧
      (b = true ↔ 2 ≤ 2 ∧
        ((([⟨"A", 10000, true⟩, ⟨"B", 10000, true⟩] : List Credential).get? ((0 + 1) % 2)).map
          (fun c => c.isActive)).getD false = true) :=
  c4_rotate_amended [("p", ⟨0, [⟨"A", 10000, true⟩, ⟨"B", 10000, true⟩]⟩)] "p"
    ⟨0, [⟨"A", 10000, true⟩, ⟨"B", 10000, true⟩]⟩ (by decide) (by decide) (by decide)

/-! ## Claim C5: summarisation on `add_message` -/

/-- C5: immediately after `add_message`, if the appended history has
reached `2 · summarize_threshold` messages, then only the newest
`summarize_threshold` messages remain (the oldest `len − threshold` were
removed) and the conversation summary is a non-empty string.  The source
initialises `summarize_threshold = 5`; the theorem covers any positive
threshold. -/
theorem c5_summarization (st : ContextManager) (role content : String)
    (tt : Option String)
    (hthr : 1 ≤ st.summarizeThreshold)
    (hlen : st.summarizeThreshold * 2 ≤ st.conversationHistory.length + 1) :
    (add_message st role content tt).conversationHistory =
      takeLastPy (st.conversationHistory ++ [⟨role, content, tt⟩])
        st.summarizeThreshold ∧
    (add_message st role content tt).conversationHistory.length =
      st.summarizeThreshold ∧
    ¬ (add_message st role content tt).conversationSummary = "" := by
  set H := st.conversationHistory ++ [(⟨role, content, tt⟩ : ConversationMessage)]
    with hH
  have hHlen : H.length = st.conversationHistory.length + 1 := by
    simp [hH]
  have hcond : H.length ≥ st.summarizeThreshold * 2 := by omega
  have hold_ne : (dropLastPy H st.summarizeThreshold).isEmpty = false := by
    unfold dropLastPy
    rw [if_neg (by omega)]
    have : (H.take (H.length - st.summarizeThreshold)).length =
        H.length - st.summarizeThreshold := by
      rw [List.length_take]
      omega
    rcases hhe : H.take (H.length - st.summarizeThreshold) with _ | ⟨x, xs⟩
    · rw [hhe] at this
      simp at this
      omega
    · simp
  unfold add_message
  rw [if_pos (by simpa [← hH] using hcond)]
  unfold triggerSummarization
  simp only [← hH]
  rw [if_neg (by simp [hold_ne])]
  refine ⟨rfl, ?_, ?_⟩
  · show (takeLastPy H st.summarizeThreshold).length = st.summarizeThreshold
    unfold takeLastPy
    rw [if_neg (by omega)]
    rw [List.length_drop]
    omega
  · show ¬ ("Previous " ++ _ ++ _) = ""
    exact ne_empty_of_append_left _ _
      (ne_empty_of_append_left "Previous " _ (by decide))

/-- C5 witness: a threshold-5 manager with nine messages; the tenth
message triggers compaction down to five and a non-empty summary. -/
theorem c5_summarization_witness :
    1 ≤ ({ conversationHistory :=
        List.replicate 9 (⟨"user", "hi", some "chat"⟩ : ConversationMessage) } :
        ContextManager).summarizeThreshold ∧
    (add_message
        { conversationHistory :=
            List.replicate 9 (⟨"user", "hi", some "chat"⟩ : ConversationMessage) }
        "user" "hello" (some "chat")).conversationHistory.length = 5 :=
  ⟨by decide,
    (c5_summarization
      { conversationHistory :=
          List.replicate 9 (⟨"user", "hi", some "chat"⟩ : ConversationMessage) }
      "user" "hello" (some "chat") (by decide) (by decide)).2.1⟩

/-! ## Occurrence lemmas shared by the `patch_file` claims -/

lemma findSubAux_none_no_prefix (needle : List Char) :
    ∀ (l : List Char) (i : Nat), findSubAux needle l i = none →
      ∀ k, ¬ needle.isPrefixOf (l.drop k) = true := by
  intro l
  induction l with
  | nil =>
    intro i h k
    unfold findSubAux at h
    by_cases hp : needle.isPrefixOf ([] : List Char) = true
    · simp [hp] at h
    · simpa using hp
  | cons c t ih =>
    intro i h k
    unfold findSubAux at h
    by_cases hp : needle.isPrefixOf (c :: t) = true
    · simp [hp] at h
    · rw [if_neg hp] at h
      cases k with
      | zero => simpa using hp
      | succ k' => exact ih (i + 1) h k'

lemma countSubAux_zero_of_no_prefix (needle : List Char) :
    ∀ (l : List Char), (∀ k, ¬ needle.isPrefixOf (l.drop k) = true) →
      countSubAux needle l 0 = 0 := by
  intro l
  induction l with
  | nil => intro _; rfl
  | cons c t ih =>
    intro h
    unfold countSubAux
    rw [if_neg (by simpa using h 0)]
    exact ih (fun k => by simpa using h (k + 1))

lemma pyContains_of_countSub_pos {find content : List Char}
    (h : 1 ≤ countSub find content) : pyContains content find = true := by
  by_cases hemp : find.isEmpty = true
  · have : find = [] := by simpa [List.isEmpty_iff] using hemp
    subst this
    unfold pyContains pyFindFrom findSubAux
    cases content <;> simp [List.isPrefixOf]
  · by_contra hcon
    have hnone : pyFindFrom content find 0 = none := by
      unfold pyContains at hcon
      cases hf : pyFindFrom content find 0
      · rfl
      · rw [hf] at hcon
        simp at hcon
    unfold pyFindFrom at hnone
    rw [if_pos (by omega)] at hnone
    simp only [List.drop_zero] at hnone
    have hzero : countSubAux find content 0 = 0 :=
      countSubAux_zero_of_no_prefix find content
        ( findSubAux_none_no_prefix find content 0 hnone)
    unfold countSub at h
    rw [if_neg hemp, hzero] at h
    omega

/-! ## Claim C10: `patch_file` error paths -/

/-- C10: on a validated existing file, requesting occurrence `n` of a text
that occurs `c ≥ 1` times with `n > c` yields an error result that reports
`c` and leaves the filesystem untouched; and when the text does not occur
at all, `patch_file` returns the error-with-hint result and performs no
write. -/
theorem c10_patch_errors (ws : List String) (fs : Fs) (p : String)
    (full : List String) (content find repl : List Char) (n : Int)
    (hv : validate_path ws p = .ok full)
    (hf : fs.lookupFile full = some content) :
    (1 ≤ countSub find content → (countSub find content : Int) < n →
      patch_file ws fs p find repl n =
        (.err ("Only " ++ toString (countSub find content) ++
          " occurrence(s) found, requested occurrence " ++ toString n) none, fs)) ∧
    (pyContains content find = false →
      patch_file ws fs p find repl n =
        (.err "Text not found in file"
          (some "The exact text was not found. Check for extra spaces, newlines, or typos."),
          fs)) := by
  have hex : fs.exists full = true := Fs.exists_of_lookup hf
  constructor
  · intro hc hn
    have hpy := pyContains_of_countSub_pos hc
    have hne0 : ¬ n = 0 := by omega
    have hgt : n > (countSub find content : Int) := by omega
    unfold patch_file
    rw [hv]
    simp [hex, hf, hpy, hne0, hgt]
  · intro habs
    unfold patch_file
    rw [hv]
    simp [hex, hf, habs]

/-- C10 witness: `"aba"` contains `"a"` twice; occurrence 5 is rejected
with the count, and `"z"` is reported as not found — both without writes. -/
theorem c10_patch_errors_witness :
    (1 ≤ countSub "a".data "aba".data ∧
      patch_file ["w"] ⟨[(["w", "f.txt"], "aba".data)], []⟩ "f.txt" "a".data "x".data 5 =
        (.err "Only 2 occurrence(s) found, requested occurrence 5" none,
          ⟨[(["w", "f.txt"], "aba".data)], []⟩)) ∧
    patch_file ["w"] ⟨[(["w", "f.txt"], "aba".data)], []⟩ "f.txt" "z".data "x".data 1 =
      (.err "Text not found in file"
        (some "The exact text was not found. Check for extra spaces, newlines, or typos."),
        ⟨[(["w", "f.txt"], "aba".data)], []⟩) := by
  refine ⟨⟨by decide, ?_⟩, ?_⟩
  · have h := (c10_patch_errors ["w"] ⟨[(["w", "f.txt"], "aba".data)], []⟩ "f.txt"
      ["w", "f.txt"] "aba".data "a".data "x".data 5 (by decide) (by decide)).1
      (by decide) (by decide)
    rw [h]
    decide
  · exact (c10_patch_errors ["w"] ⟨[(["w", "f.txt"], "aba".data)], []⟩ "f.txt"
      ["w", "f.txt"] "aba".data "z".data "x".data 1 (by decide) (by decide)).2
      (by decide)

/-! ## Claim C7: large-file refusal and chunk flags -/

/-- C7: reading a validated workspace file with more than 2000 lines
returns the metadata-only `largeFile` result — line count, byte size,
`is_large_file` with `max_lines_shown = 0` and the chunking hint, and no
content field — and every `read_file_chunk` result satisfies the
`has_more_before`/`has_more_after` contract. -/
theorem c7_large_file (ws : List String) (fs : Fs) (p : String)
    (full : List String) (content : List Char)
    (hv : validate_path ws p = .ok full)
    (hf : fs.lookupFile full = some content)
    (hbig : MAX_LINES < (splitOnChar (Char.ofNat 10) content).length) :
    read_file ws fs p =
      .largeFile p (detect_language p) (splitOnChar (Char.ofNat 10) content).length
        (utf8Len content) 0
        ("File has " ++ toString (splitOnChar (Char.ofNat 10) content).length ++
          " lines. Use read_file_chunk(path, start_line, end_line) to read specific sections. Recommended chunk size: 500 lines.") ∧
    (∀ (fs' : Fs) (p' : String) (s e : Int),
      chunkFlagsOk (read_file_chunk ws fs' p' s e)) := by
  constructor
  · have hex : fs.exists full = true := Fs.exists_of_lookup hf
    have hisf : fs.isFile full = true := Fs.isFile_of_lookup hf
    unfold read_file
    rw [hv]
    simp [hex, hisf, hf, hbig]
  · intro fs' p' s e
    unfold read_file_chunk
    cases hval : validate_path ws p' with
    | error msg => simp [chunkFlagsOk]
    | ok full' =>
      by_cases hex : fs'.exists full' = true
      · by_cases hisf : fs'.isFile full' = true
        · simp only [hex, hisf, not_true, if_false]
          cases hlook : fs'.lookupFile full' with
          | none => simp [chunkFlagsOk]
          | some c =>
            simp only []
            split_ifs <;> simp [chunkFlagsOk]
        · simp [hex, hisf, chunkFlagsOk]
      · simp [hex, chunkFlagsOk]

lemma splitOnChar_replicate_sep (c : Char) (n : Nat) :
    splitOnChar c (List.replicate n c) = List.replicate (n + 1) [] := by
  induction n with
  | zero => rfl
  | succ m ih =>
    show splitOnChar c (c :: List.replicate m c) = _
    unfold splitOnChar
    rw [ih]
    simp [List.replicate_succ]

lemma utf8Len_aux (l : List Char) :
    ∀ acc, l.foldl (fun n c => n + c.utf8Size) acc = acc + utf8Len l := by
  induction l with
  | nil => intro acc; simp [utf8Len]
  | cons c t ih =>
    intro acc
    show t.foldl _ (acc + c.utf8Size) = acc + utf8Len (c :: t)
    rw [ih (acc + c.utf8Size)]
    have h2 : utf8Len (c :: t) = c.utf8Size + utf8Len t := by
      show t.foldl _ (0 + c.utf8Size) = _
      rw [ih (0 + c.utf8Size)]
      omega
    omega

lemma utf8Len_replicate_one (c : Char) (hc : c.utf8Size = 1) (n : Nat) :
    utf8Len (List.replicate n c) = n := by
  induction n with
  | zero => rfl
  | succ m ih =>
    rw [List.replicate_succ]
    show (List.replicate m c).foldl _ (0 + c.utf8Size) = m + 1
    rw [utf8Len_aux, ih, hc]
    omega

/-- C7 witness: a 2001-line file produces the metadata-only result, and a
middle chunk of a three-line file reports more lines on both sides. -/
theorem c7_large_file_witness :
    read_file ["w"] ⟨[(["w", "big.py"], List.replicate 2000 (Char.ofNat 10))], []⟩ "big.py" =
      .largeFile "big.py" "python" 2001 2000 0
        ("File has 2001 lines. Use read_file_chunk(path, start_line, end_line) to read specific sections. Recommended chunk size: 500 lines.") ∧
    chunkFlagsOk (read_file_chunk ["w"]
      ⟨[(["w", "t.txt"], "a\nb\nc".data)], []⟩ "t.txt" 2 2) := by
  have hlen : (splitOnChar (Char.ofNat 10)
      (List.replicate 2000 (Char.ofNat 10))).length = 2001 := by
    rw [splitOnChar_replicate_sep, List.length_replicate]
  have hutf : utf8Len (List.replicate 2000 (Char.ofNat 10)) = 2000 :=
    utf8Len_replicate_one (Char.ofNat 10) (by decide) 2000
  have h := c7_large_file ["w"]
    ⟨[(["w", "big.py"], List.replicate 2000 (Char.ofNat 10))], []⟩ "big.py"
    ["w", "big.py"] (List.replicate 2000 (Char.ofNat 10))
    (by decide) rfl (by rw [hlen]; decide)
  refine ⟨?_, h.2 ⟨[(["w", "t.txt"], "a\nb\nc".data)], []⟩ "t.txt" 2 2⟩
  rw [h.1, hlen, hutf]
  decide

/-! ## Claim C1: the path sandbox -/

/-- C1 counterexample: for the *destination* argument of `move_file` the
error result depends on the filesystem — with the source present, the
destination's sandbox violation is reported, with it absent the missing
source is — because `move_file` checks the source's existence (a
filesystem read) before validating the destination.  So a `..` destination
is not rejected "without performing any filesystem I/O". -/
theorem c1_sandbox_cex :
    pyStrContains "../x" ".." = true ∧
    (move_file ["w"] ⟨[(["w", "a.txt"], "hi".data)], []⟩ "a.txt" "../x").1 =
      .err "Destination: Path traversal (..) not allowed" none ∧
    (move_file ["w"] ⟨[], []⟩ "a.txt" "../x").1 =
      .err "Source not found: a.txt" none ∧
    ¬ (move_file ["w"] ⟨[(["w", "a.txt"], "hi".data)], []⟩ "a.txt" "../x").1 =
      (move_file ["w"] ⟨[], []⟩ "a.txt" "../x").1 := by
  refine ⟨by decide, by decide, by decide, by decide⟩

/-- C1 (amended): every path argument containing `..` or resolving outside
the workspace makes the tool return an error result with the filesystem
untouched, and only workspace-descendant paths ever validate; for all
tools and arguments except the destination argument of `move_file` the
error is additionally produced without reading the filesystem (the result
is independent of it), while for `move_file`'s destination the rejection
happens only after the source-existence check. -/
theorem c1_sandbox_amended (ws : List String) (p : String)
    (h : pyStrContains p ".." = true ∨ ¬ ws.isPrefixOf (resolveFull ws p) = true) :
    (∀ q full, validate_path ws q = .ok full → ws.isPrefixOf full = true) ∧
    (∀ fs fs' : Fs, (read_file ws fs p).isErr = true ∧
      read_file ws fs p = read_file ws fs' p) ∧
    (∀ (fs fs' : Fs) (s e : Int), (read_file_chunk ws fs p s e).isErr = true ∧
      read_file_chunk ws fs p s e = read_file_chunk ws fs' p s e) ∧
    (∀ (fs fs' : Fs) (c : List Char) (ow : Bool),
      (create_file ws fs p c ow).1.isErr = true ∧ (create_file ws fs p c ow).2 = fs ∧
      (create_file ws fs p c ow).1 = (create_file ws fs' p c ow).1) ∧
    (∀ (fs fs' : Fs) (c : List Char) (b : Bool),
      (modify_file ws fs p c b).1.isErr = true ∧ (modify_file ws fs p c b).2 = fs ∧
      (modify_file ws fs p c b).1 = (modify_file ws fs' p c b).1) ∧
    (∀ (fs fs' : Fs) (f r : List Char) (n : Int),
      (patch_file ws fs p f r n).1.isErr = true ∧ (patch_file ws fs p f r n).2 = fs ∧
      (patch_file ws fs p f r n).1 = (patch_file ws fs' p f r n).1) ∧
    (∀ (fs fs' : Fs) (rec : Bool),
      (delete_file ws fs p rec).1.isErr = true ∧ (delete_file ws fs p rec).2 = fs ∧
      (delete_file ws fs p rec).1 = (delete_file ws fs' p rec).1) ∧
    (∀ (fs fs' : Fs) (dst : String),
      (move_file ws fs p dst).1.isErr = true ∧ (move_file ws fs p dst).2 = fs ∧
      (move_file ws fs p dst).1 = (move_file ws fs' p dst).1) ∧
    (∀ (fs : Fs) (src : String),
      (move_file ws fs src p).1.isErr = true ∧ (move_file ws fs src p).2 = fs) ∧
    (∀ (fs fs' : Fs) (rec : Bool),
      (list_files ws fs p rec).isErr = true ∧
      list_files ws fs p rec = list_files ws fs' p rec) ∧
    (∀ (fs fs' : Fs) (q : List Char) (pat : String),
      (search_files ws fs q pat p).isErr = true ∧
      search_files ws fs q pat p = search_files ws fs' q pat p) := by
  obtain ⟨e, he⟩ := validate_path_of_bad h
  refine ⟨fun q full hq => validate_path_ok_prefix hq, ?_, ?_, ?_, ?_, ?_, ?_, ?_, ?_, ?_, ?_⟩
  · intro fs fs'
    unfold read_file
    rw [he]
    exact ⟨rfl, rfl⟩
  · intro fs fs' s e'
    unfold read_file_chunk
    rw [he]
    exact ⟨rfl, rfl⟩
  · intro fs fs' c ow
    unfold create_file
    rw [he]
    exact ⟨rfl, rfl, rfl⟩
  · intro fs fs' c b
    unfold modify_file
    rw [he]
    exact ⟨rfl, rfl, rfl⟩
  · intro fs fs' f r n
    unfold patch_file
    rw [he]
    exact ⟨rfl, rfl, rfl⟩
  · intro fs fs' rec
    unfold delete_file
    rw [he]
    exact ⟨rfl, rfl, rfl⟩
  · intro fs fs' dst
    unfold move_file
    rw [he]
    exact ⟨rfl, rfl, rfl⟩
  · intro fs src
    unfold move_file
    cases hsv : validate_path ws src with
    | error es => exact ⟨rfl, rfl⟩
    | ok sfull =>
      by_cases hex : fs.exists sfull = true
      · simp [hex, he, ToolResult.isErr]
      · simp [hex, ToolResult.isErr]
  · intro fs fs' rec
    unfold list_files
    rw [he]
    exact ⟨rfl, rfl⟩
  · intro fs fs' q pat
    unfold search_files
    rw [he]
    exact ⟨rfl, rfl⟩

/-- C1 amended-theorem witness at the concrete traversal argument
`"../etc"`: `read_file` errors and a recursive `delete_file` leaves the
filesystem untouched. -/
theorem c1_sandbox_witness :
    (read_file ["w"] ⟨[(["w", "a.txt"], "hi".data)], []⟩ "../etc").isErr = true ∧
    (delete_file ["w"] ⟨[(["w", "a.txt"], "hi".data)], []⟩ "../etc" true).2 =
      ⟨[(["w", "a.txt"], "hi".data)], []⟩ :=
  ⟨((c1_sandbox_amended ["w"] "../etc" (Or.inl (by decide))).2.1
      ⟨[(["w", "a.txt"], "hi".data)], []⟩ ⟨[], []⟩).1,
    (((c1_sandbox_amended ["w"] "../etc" (Or.inl (by decide))).2.2.2.2.2.2.1
      ⟨[(["w", "a.txt"], "hi".data)], []⟩ ⟨[], []⟩ true).2.1)⟩

/-! ## Lemmas for the `patch_file` round trip (claim C8) -/

lemma findSubAux_some_spec (needle : List Char) :
    ∀ (l : List Char) (i j : Nat), findSubAux needle l i = some j →
      ∃ k, j = i + k ∧ k ≤ l.length ∧ needle.isPrefixOf (l.drop k) = true := by
  intro l
  induction l with
  | nil =>
    intro i j h
    unfold findSubAux at h
    by_cases hp : needle.isPrefixOf ([] : List Char) = true
    · rw [if_pos hp] at h
      cases h
      exact ⟨0, by omega, by omega, hp⟩
    · rw [if_neg hp] at h
      cases h
  | cons c t ih =>
    intro i j h
    unfold findSubAux at h
    by_cases hp : needle.isPrefixOf (c :: t) = true
    · rw [if_pos hp] at h
      cases h
      exact ⟨0, by omega, by omega, hp⟩
    · rw [if_neg hp] at h
      obtain ⟨k', hk', hle, hpre⟩ := ih (i + 1) j h
      exact ⟨k' + 1, by omega, by simpa using hle, by simpa using hpre⟩

lemma pyFindFrom_zero_spec {hay needle : List Char} {j : Nat}
    (h : pyFindFrom hay needle 0 = some j) :
    j ≤ hay.length ∧ needle.isPrefixOf (hay.drop j) = true := by
  unfold pyFindFrom at h
  rw [if_pos (by omega)] at h
  simp only [List.drop_zero] at h
  obtain ⟨k, hk, hle, hpre⟩ := findSubAux_some_spec needle hay 0 j h
  have hjk : j = k := by omega
  subst hjk
  exact ⟨hle, hpre⟩

lemma countSubAux_pos_of_prefix (needle : List Char) (hne : ¬ needle = []) :
    ∀ (l : List Char) (k : Nat), needle.isPrefixOf (l.drop k) = true →
      1 ≤ countSubAux needle l 0 := by
  intro l
  induction l with
  | nil =>
    intro k hpre
    simp only [List.drop_nil] at hpre
    exact absurd (List.prefix_nil.mp (List.isPrefixOf_iff_prefix.mp hpre)) hne
  | cons c t ih =>
    intro k hpre
    unfold countSubAux
    by_cases hp : needle.isPrefixOf (c :: t) = true
    · rw [if_pos hp]
      omega
    · rw [if_neg hp]
      cases k with
      | zero => simp only [List.drop_zero] at hpre; exact absurd hpre hp
      | succ k' => exact ih k' (by simpa using hpre)

lemma countSub_pos_of_pyContains {content find : List Char}
    (h : pyContains content find = true) : 1 ≤ countSub find content := by
  by_cases hemp : find.isEmpty = true
  · unfold countSub
    rw [if_pos hemp]
    omega
  · obtain ⟨j, hj⟩ : ∃ j, pyFindFrom content find 0 = some j := by
      unfold pyContains at h
      cases hf : pyFindFrom content find 0
      · rw [hf] at h
        simp at h
      · exact ⟨_, rfl⟩
    obtain ⟨_, hpre⟩ := pyFindFrom_zero_spec hj
    unfold countSub
    rw [if_neg hemp]
    exact countSubAux_pos_of_prefix find (by simpa [List.isEmpty_iff] using hemp)
      content j hpre

lemma decomp_of_prefix_drop {hay needle : List Char} {j : Nat}
    (hj : j ≤ hay.length) (hpre : needle.isPrefixOf (hay.drop j) = true) :
    hay = hay.take j ++ needle ++ hay.drop (j + needle.length) ∧
      j + needle.length ≤ hay.length := by
  obtain ⟨t, ht⟩ : ∃ t, hay.drop j = needle ++ t :=
    (List.isPrefixOf_iff_prefix.mp hpre).elim (fun t ht => ⟨t, ht.symm⟩)
  have hlen : hay.length - j = needle.length + t.length := by
    have := congrArg List.length ht
    simpa [List.length_drop] using this
  have htt : hay.drop (j + needle.length) = t := by
    have h1 : hay.drop (j + needle.length) = (hay.drop j).drop needle.length := by
      rw [List.drop_drop]
    rw [h1, ht]
    simp
  constructor
  · conv_lhs => rw [← List.take_append_drop j hay]
    rw [ht, htt]
    simp
  · omega

lemma Fs.lookupFile_writeFile_self (fs : Fs) (p : List String) (c : List Char) :
    (fs.writeFile p c).lookupFile p = some c := by
  simp [Fs.lookupFile, Fs.writeFile]

lemma patch_file_occ1 (ws : List String) (fs : Fs) (p : String) (full : List String)
    (content x y : List Char) (i : Nat)
    (hv : validate_path ws p = .ok full)
    (hf : fs.lookupFile full = some content)
    (hfind : pyFindFrom content x 0 = some i) :
    patch_file ws fs p x y 1 =
      (.patched p 1 (countSub x content),
        fs.writeFile full (content.take i ++ y ++ content.drop (i + x.length))) := by
  have hex : fs.exists full = true := Fs.exists_of_lookup hf
  have hcontains : pyContains content x = true := by
    unfold pyContains
    rw [hfind]
    rfl
  have hcpos : 1 ≤ countSub x content := countSub_pos_of_pyContains hcontains
  obtain ⟨hile, hpre⟩ := pyFindFrom_zero_spec hfind
  obtain ⟨hdecomp, hixle⟩ := decomp_of_prefix_drop hile hpre
  have hidx : nthFindLoop content x (1 : Nat) (-1) = (i : Int) := by
    unfold nthFindLoop
    rw [show ((-1 : Int) + 1).toNat = 0 by decide, hfind]
    rfl
  have hs1 : pySliceIdx content.length ((i : Nat) : Int) = i := by
    unfold pySliceIdx
    rw [if_neg (by omega)]
    omega
  have hs2 : pySliceIdx content.length (((i : Nat) : Int) + ((x.length : Nat) : Int)) =
      i + x.length := by
    unfold pySliceIdx
    rw [if_neg (by omega)]
    omega
  have h10 : ¬ (1 : Int) = 0 := by omega
  have h1c : ¬ (1 : Int) > (countSub x content : Int) := by omega
  unfold patch_file
  rw [hv]
  simp [hex, hf, hcontains, h10, h1c, hidx, hs1, hs2]

lemma read_file_congr {ws : List String} {p : String} {full : List String}
    {fs₁ fs₂ : Fs}
    (hv : validate_path ws p = .ok full)
    (h1 : fs₂.exists full = fs₁.exists full)
    (h2 : fs₂.isFile full = fs₁.isFile full)
    (h3 : fs₂.lookupFile full = fs₁.lookupFile full) :
    read_file ws fs₂ p = read_file ws fs₁ p := by
  unfold read_file
  simp only [hv]
  rw [h1, h2, h3]

/-! ## Claim C8: `patch_file` round trip -/

/-- C8 counterexample: the file `"ab"` contains `"b"` exactly once, yet
`patch_file(p, "b", "a", 1)` followed by `patch_file(p, "a", "b", 1)`
yields `"ba"` — the second patch replaces the *first* occurrence of
`"a"`, which is not the one that was inserted — so `read_file` does not
observe the original content. -/
theorem c8_roundtrip_cex :
    countSub "b".data "ab".data = 1 ∧
    read_file ["w"]
      (patch_file ["w"]
        (patch_file ["w"] ⟨[(["w", "f.txt"], "ab".data)], []⟩ "f.txt"
          "b".data "a".data 1).2
        "f.txt" "a".data "b".data 1).2 "f.txt" =
      .fileData "ba".data "f.txt" "text" 1 2 ∧
    ¬ ("ba".data = "ab".data) := by
  refine ⟨by decide, by decide, by decide⟩

/-- C8 (amended): when the original content contains `x` exactly once —
say first found at index `i` — and, in the patched content, the first
occurrence of `y` is again at index `i` (i.e. the earliest occurrence of
`y` is the inserted one), then `patch_file(p, x, y, 1)` followed by
`patch_file(p, y, x, 1)` restores the original content, as observed by
`read_file(p)`.  Without the extra proviso on `y` the round trip can fail
(see the counterexample). -/
theorem c8_roundtrip_amended (ws : List String) (fs : Fs) (p : String)
    (full : List String) (content x y : List Char) (i : Nat)
    (hv : validate_path ws p = .ok full)
    (hf : fs.lookupFile full = some content)
    (hcount : countSub x content = 1)
    (hfind1 : pyFindFrom content x 0 = some i)
    (hfind2 : pyFindFrom (content.take i ++ y ++ content.drop (i + x.length)) y 0 =
      some i) :
    patch_file ws fs p x y 1 =
      (.patched p 1 1,
        fs.writeFile full (content.take i ++ y ++ content.drop (i + x.length))) ∧
    patch_file ws
        (fs.writeFile full (content.take i ++ y ++ content.drop (i + x.length)))
        p y x 1 =
      (.patched p 1
          (countSub y (content.take i ++ y ++ content.drop (i + x.length))),
        (fs.writeFile full
          (content.take i ++ y ++ content.drop (i + x.length))).writeFile full content) ∧
    ((fs.writeFile full
        (content.take i ++ y ++ content.drop (i + x.length))).writeFile full
        content).lookupFile full = some content ∧
    read_file ws
      ((fs.writeFile full
        (content.take i ++ y ++ content.drop (i + x.length))).writeFile full content)
      p = read_file ws fs p := by
  obtain ⟨hile, hpre⟩ := pyFindFrom_zero_spec hfind1
  obtain ⟨hdecomp, hixle⟩ := decomp_of_prefix_drop hile hpre
  have htake : (content.take i).length = i := by
    rw [List.length_take]
    omega
  have h1 := patch_file_occ1 ws fs p full content x y i hv hf hfind1
  rw [hcount] at h1
  have hf1 : (fs.writeFile full
      (content.take i ++ y ++ content.drop (i + x.length))).lookupFile full =
      some (content.take i ++ y ++ content.drop (i + x.length)) :=
    Fs.lookupFile_writeFile_self fs full _
  have h2 := patch_file_occ1 ws
    (fs.writeFile full (content.take i ++ y ++ content.drop (i + x.length)))
    p full (content.take i ++ y ++ content.drop (i + x.length)) y x i hv hf1 hfind2
  have hAtake : (content.take i ++ y ++ content.drop (i + x.length)).take i =
      content.take i := by
    rw [List.append_assoc]
    exact List.take_left' htake
  have hBdrop : (content.take i ++ y ++ content.drop (i + x.length)).drop
      (i + y.length) = content.drop (i + x.length) := by
    apply List.drop_left'
    rw [List.length_append, htake]
  have hpatched2 : (content.take i ++ y ++ content.drop (i + x.length)).take i ++ x ++
      (content.take i ++ y ++ content.drop (i + x.length)).drop (i + y.length) =
      content := by
    rw [hAtake, hBdrop]
    exact hdecomp.symm
  rw [hpatched2] at h2
  have hlook2 : ((fs.writeFile full
      (content.take i ++ y ++ content.drop (i + x.length))).writeFile full
      content).lookupFile full = some content :=
    Fs.lookupFile_writeFile_self _ full content
  refine ⟨h1, h2, hlook2, ?_⟩
  exact read_file_congr hv
    ((Fs.exists_of_lookup hlook2).trans (Fs.exists_of_lookup hf).symm)
    ((Fs.isFile_of_lookup hlook2).trans (Fs.isFile_of_lookup hf).symm)
    (hlook2.trans hf.symm)

/-- C8 amended-theorem witness: patching `"hello world"` from `"world"` to
`"WORLD"` and back restores the original file. -/
theorem c8_roundtrip_witness :
    read_file ["w"]
      (((⟨[(["w", "f.txt"], "hello world".data)], []⟩ : Fs).writeFile
        ["w", "f.txt"]
        ("hello world".data.take 6 ++ "WORLD".data ++
          "hello world".data.drop (6 + "world".data.length))).writeFile
        ["w", "f.txt"] "hello world".data) "f.txt" =
      read_file ["w"] ⟨[(["w", "f.txt"], "hello world".data)], []⟩ "f.txt" :=
  (c8_roundtrip_amended ["w"] ⟨[(["w", "f.txt"], "hello world".data)], []⟩ "f.txt"
    ["w", "f.txt"] "hello world".data "world".data "WORLD".data 6
    (by decide) (by decide) (by decide) (by decide) (by decide)).2.2.2

/-! ## Stream-event lemmas (claims C2, C3, C6) -/

lemma toolEvents_append (a b : List StreamEvent) :
    toolEvents (a ++ b) = toolEvents a ++ toolEvents b :=
  List.filter_append _ _

lemma wellPaired_append :
    ∀ u v : List StreamEvent, wellPaired u = true → wellPaired v = true →
      wellPaired (u ++ v) = true := by
  intro u
  induction u using wellPaired.induct with
  | case1 => intro v _ hv; simpa using hv
  | case2 t a t' r rest ih =>
    intro v hu hv
    unfold wellPaired at hu ⊢
    simp only [List.cons_append]
    simp only [Bool.decide_and, Bool.and_eq_true, decide_eq_true_eq] at hu ⊢
    exact ⟨hu.1, ih v hu.2 hv⟩
  | case3 l h1 h2 =>
    intro v hu hv
    rw [wellPaired] at hu
    · cases hu
    all_goals assumption

lemma countP_eq_of_wellPaired :
    ∀ u : List StreamEvent, wellPaired u = true →
      u.countP isToolStartEv = u.countP isToolCompleteEv := by
  intro u
  induction u using wellPaired.induct with
  | case1 => intro _; rfl
  | case2 t a t' r rest ih =>
    intro hu
    unfold wellPaired at hu
    simp only [Bool.decide_and, Bool.and_eq_true, decide_eq_true_eq] at hu
    simp only [List.countP_cons, isToolStartEv, isToolCompleteEv]
    rw [ih hu.2]
    simp
  | case3 l h1 h2 =>
    intro hu
    rw [wellPaired] at hu
    · cases hu
    all_goals assumption

lemma countP_filter_of_imp (p q : StreamEvent → Bool)
    (himp : ∀ e, p e = true → q e = true) :
    ∀ l : List StreamEvent, (l.filter q).countP p = l.countP p := by
  intro l
  induction l with
  | nil => rfl
  | cons e t ih =>
    by_cases hq : q e = true
    · rw [List.filter_cons_of_pos hq]
      simp only [List.countP_cons, ih]
    · rw [List.filter_cons_of_neg (by simpa using hq)]
      have hp : ¬ p e = true := fun hp => hq (himp e hp)
      simp only [List.countP_cons, ih]
      simp [hp]

lemma toolEvents_nil_of_plain (evs : List StreamEvent)
    (h : ∀ e ∈ evs, isToolStartEv e = false ∧ isToolCompleteEv e = false) :
    toolEvents evs = [] := by
  induction evs with
  | nil => rfl
  | cons e t ih =>
    have he := h e (by simp)
    unfold toolEvents
    rw [List.filter_cons_of_neg (by simp [he.1, he.2])]
    exact ih (fun x hx => h x (by simp [hx]))

lemma endsDoneOrError_append (a b : List StreamEvent)
    (hb : endsDoneOrError b = true) : endsDoneOrError (a ++ b) = true := by
  unfold endsDoneOrError at hb ⊢
  cases hgb : b.getLast? with
  | none => rw [hgb] at hb; cases hb
  | some e =>
    have hbne : ¬ b = [] := by
      intro hnil
      rw [hnil] at hgb
      cases hgb
    rw [List.getLast?_append_of_ne_nil a hbne, hgb]
    rw [hgb] at hb
    exact hb

lemma mem_of_mem_dropLast {e : StreamEvent} {l : List StreamEvent}
    (h : e ∈ l.dropLast) : e ∈ l :=
  List.Sublist.mem h (List.dropLast_sublist l)

lemma chunkTokensGo_all_token :
    ∀ (fuel : Nat) (l : List Char) (e : StreamEvent), e ∈ chunkTokensGo fuel l →
      ∃ s, e = .token s := by
  intro fuel
  induction fuel with
  | zero => intro l e h; cases h
  | succ f ih =>
    intro l e h
    cases l with
    | nil => cases h
    | cons c t =>
      unfold chunkTokensGo at h
      rcases List.mem_cons.mp h with h1 | h2
      · exact ⟨_, h1⟩
      · exact ih _ e h2

lemma toolEvents_iterEvents (env : LoopEnv) (it : Nat) :
    toolEvents (iterEvents env it) = [] := by
  unfold iterEvents toolEvents
  split_ifs <;> rfl

lemma toolEvents_chunkTokens (l : List Char) : toolEvents (chunkTokens l) = [] := by
  apply toolEvents_nil_of_plain
  intro e he
  obtain ⟨s, rfl⟩ := chunkTokensGo_all_token _ _ e he
  exact ⟨rfl, rfl⟩

lemma endsDoneOrError_of_getLast_error {evs : List StreamEvent} {s : String}
    (h : evs.getLast? = some (.error s)) : endsDoneOrError evs = true := by
  unfold endsDoneOrError
  rw [h]
  simp [isErrorEv, isDoneEv]

lemma endsDoneOrError_of_getLast_done {evs : List StreamEvent}
    {a b c : String} {d e : Nat} {f : List String} {g h' : Bool}
    (h : evs.getLast? = some (.done a b c d e f g h')) : endsDoneOrError evs = true := by
  unfold endsDoneOrError
  rw [h]
  simp [isErrorEv, isDoneEv]

lemma counts_of_wellPaired_toolEvents (l : List StreamEvent)
    (h : wellPaired (toolEvents l) = true) :
    l.countP isToolStartEv = l.countP isToolCompleteEv := by
  have hs : (toolEvents l).countP isToolStartEv = l.countP isToolStartEv := by
    unfold toolEvents
    exact countP_filter_of_imp _ _ (fun e he => by simp [he]) l
  have hc : (toolEvents l).countP isToolCompleteEv = l.countP isToolCompleteEv := by
    unfold toolEvents
    exact countP_filter_of_imp _ _ (fun e he => by simp [he]) l
  rw [← hs, ← hc]
  exact countP_eq_of_wellPaired _ h

lemma processCalls_paired (env : LoopEnv) (it : Nat) :
    ∀ (calls : List ScriptToolCall) (st : LoopState),
      wellPaired (toolEvents (processCalls env it calls st).1) = true := by
  intro calls
  induction calls with
  | nil => intro st; rfl
  | cons c rest ih =>
    intro st
    simp only [processCalls]
    split
    · rfl
    · rw [toolEvents_append, toolEvents_append, toolEvents_append]
      have h2 : toolEvents (match generateObservation c.name c.args c.result with
          | some o => [StreamEvent.message o] | none => []) = [] := by
        cases generateObservation c.name c.args c.result <;> rfl
      have h3 : toolEvents (if fileModifyingTools.contains c.name
          then [StreamEvent.fileTreeUpdated] else []) = [] := by
        split <;> rfl
      rw [h2, h3]
      have h1 : toolEvents
          [StreamEvent.message (getProgressMessage c.name c.args),
           .toolStart c.name c.args, .toolComplete c.name c.result] =
          [.toolStart c.name c.args, .toolComplete c.name c.result] := rfl
      rw [h1]
      simp [wellPaired, ih]

lemma processCalls_stop_last (env : LoopEnv) (it : Nat) :
    ∀ (calls : List ScriptToolCall) (st : LoopState),
      (processCalls env it calls st).2.2 = true →
      (processCalls env it calls st).1.getLast? =
        some (doneEvent (processCalls env it calls st).2.1 env it true false) := by
  intro calls
  induction calls with
  | nil =>
    intro st h
    simp [processCalls] at h
  | cons c rest ih =>
    intro st h
    simp only [processCalls] at h ⊢
    split at h
    · rename_i hl
      simp only [if_pos hl]
      rfl
    · rename_i hl
      simp only [if_neg hl] at h ⊢
      have hlast := ih _ h
      have hne : (processCalls env it rest
          { st with
            detector := st.detector.addCall (callSig c.name c.args),
            executedNames := st.executedNames ++ [c.name] }).1 ≠ [] := by
        intro hnil
        rw [hnil] at hlast
        cases hlast
      rw [List.getLast?_append_of_ne_nil _ hne]
      exact hlast

lemma fallbackScan_plain (env : LoopEnv) (st : LoopState) (oracle : List Bool) :
    ∀ (chain : List (String × String)) (i : Nat),
      ∀ e ∈ (fallbackScan env st oracle chain i).1,
        isToolStartEv e = false ∧ isToolCompleteEv e = false := by
  intro chain
  induction chain with
  | nil =>
    intro i e he
    simp only [fallbackScan, List.mem_singleton] at he
    subst he
    exact ⟨rfl, rfl⟩
  | cons pk rest ih =>
    intro i e he
    obtain ⟨p, k⟩ := pk
    rw [fallbackScan] at he
    by_cases hq : oracle.getD i false = true
    · rw [if_pos hq] at he
      simp only [List.mem_append, List.mem_singleton] at he
      rcases he with h1 | h1 <;> subst h1 <;> exact ⟨rfl, rfl⟩
    · rw [if_neg hq] at he
      simp only [List.mem_append, List.mem_singleton] at he
      rcases he with h1 | h1
      · subst h1
        exact ⟨rfl, rfl⟩
      · exact ih (i + 1) e h1

lemma fallbackScan_none_ends_error (env : LoopEnv) (st : LoopState) (oracle : List Bool) :
    ∀ (chain : List (String × String)) (i : Nat),
      (fallbackScan env st oracle chain i).2 = none →
      (fallbackScan env st oracle chain i).1.getLast? =
        some (.error "Rate limit exceeded on all providers. Please wait and try again.") := by
  intro chain
  induction chain with
  | nil => intro i _; rfl
  | cons pk rest ih =>
    intro i h
    obtain ⟨p, k⟩ := pk
    rw [fallbackScan] at h ⊢
    by_cases hq : oracle.getD i false = true
    · rw [if_pos hq] at h
      simp at h
    · rw [if_neg hq] at h ⊢
      simp only at h ⊢
      have hlast := ih (i + 1) h
      have hne : (fallbackScan env st oracle rest (i + 1)).1 ≠ [] := by
        intro hnil
        rw [hnil] at hlast
        cases hlast
      rw [List.getLast?_append_of_ne_nil _ hne]
      exact hlast

lemma fallbackScan_first_ok (env : LoopEnv) (st : LoopState) (oracle : List Bool)
    (p k : String) (chain : List (String × String)) (i : Nat)
    (h : oracle.getD i false = true) :
    fallbackScan env st oracle ((p, k) :: chain) i =
      ([.message ("⚠️ Switching to " ++ p ++ "..."),
        .message ("✓ Using " ++ p ++ "/" ++ env.resolveName p k)],
       some { st with provider := p, modelName := env.resolveName p k }) := by
  rw [fallbackScan, if_pos h]
  rfl


lemma rotEvs_plain (st : LoopState) (b : Bool) :
    ∀ e ∈ rotEvs st b, isToolStartEv e = false ∧ isToolCompleteEv e = false := by
  unfold rotEvs
  split
  · intro e he
    simp only [List.mem_singleton] at he
    subst he
    exact ⟨rfl, rfl⟩
  · intro e he
    cases he

lemma handleRateLimit_eq_crash (env : LoopEnv) (st : LoopState) (msg : String)
    (ffo : Bool) (fbo : List Bool)
    (hrc : rotate_credential st.creds st.provider = none) :
    handleRateLimit env st msg ffo fbo = .crashed := by
  unfold handleRateLimit
  rw [hrc]

lemma handleRateLimit_eq_rotOk (env : LoopEnv) (st : LoopState) (msg : String)
    (fbo : List Bool) (cs : CredStore)
    (hrc : rotate_credential st.creds st.provider = some (true, cs)) :
    handleRateLimit env st msg true fbo =
      .retry (rotEvs st true ++ [.message ("✓ Using next API key for " ++ st.provider)])
        { st with creds := cs } := by
  unfold handleRateLimit
  rw [hrc]
  rfl

lemma handleRateLimit_eq_pinned (env : LoopEnv) (st : LoopState) (msg : String)
    (ffo : Bool) (fbo : List Bool) (rc : Bool × CredStore) (pm : String × String)
    (hrc : rotate_credential st.creds st.provider = some rc)
    (hok : ¬ (rc.1 = true ∧ ffo = true)) (hp : env.pinned = some pm) :
    handleRateLimit env st msg ffo fbo =
      .halt (rotEvs st rc.1 ++ [.error ("Rate limit exceeded for your selected model (" ++
        st.provider ++ "). Please try another model or wait.")]) := by
  unfold handleRateLimit
  simp only [hrc, if_neg hok, hp]

lemma handleRateLimit_eq_fallback_some (env : LoopEnv) (st : LoopState) (msg : String)
    (ffo : Bool) (fbo : List Bool) (rc : Bool × CredStore) (st2 : LoopState)
    (hrc : rotate_credential st.creds st.provider = some rc)
    (hok : ¬ (rc.1 = true ∧ ffo = true)) (hp : env.pinned = none)
    (hlen : 1 < env.modelsChain.length)
    (hfb : (fallbackScan env { st with creds := rc.2 } fbo
        (env.modelsChain.drop 1) 0).2 = some st2) :
    handleRateLimit env st msg ffo fbo =
      .retry (rotEvs st rc.1 ++ (fallbackScan env { st with creds := rc.2 } fbo
        (env.modelsChain.drop 1) 0).1) st2 := by
  unfold handleRateLimit
  simp only [hrc, if_neg hok, hp, if_pos hlen, hfb]

lemma handleRateLimit_eq_fallback_none (env : LoopEnv) (st : LoopState) (msg : String)
    (ffo : Bool) (fbo : List Bool) (rc : Bool × CredStore)
    (hrc : rotate_credential st.creds st.provider = some rc)
    (hok : ¬ (rc.1 = true ∧ ffo = true)) (hp : env.pinned = none)
    (hlen : 1 < env.modelsChain.length)
    (hfb : (fallbackScan env { st with creds := rc.2 } fbo
        (env.modelsChain.drop 1) 0).2 = none) :
    handleRateLimit env st msg ffo fbo =
      .halt (rotEvs st rc.1 ++ (fallbackScan env { st with creds := rc.2 } fbo
        (env.modelsChain.drop 1) 0).1) := by
  unfold handleRateLimit
  simp only [hrc, if_neg hok, hp, if_pos hlen, hfb]

lemma handleRateLimit_eq_short_chain (env : LoopEnv) (st : LoopState) (msg : String)
    (ffo : Bool) (fbo : List Bool) (rc : Bool × CredStore)
    (hrc : rotate_credential st.creds st.provider = some rc)
    (hok : ¬ (rc.1 = true ∧ ffo = true)) (hp : env.pinned = none)
    (hlen : ¬ 1 < env.modelsChain.length) :
    handleRateLimit env st msg ffo fbo =
      .halt (rotEvs st rc.1 ++ [.error ("Rate limit exceeded: " ++ strTake msg 100)]) := by
  unfold handleRateLimit
  simp only [hrc, if_neg hok, hp, if_neg hlen]

lemma handleRateLimit_cases (env : LoopEnv) (st : LoopState) (msg : String)
    (ffo : Bool) (fbo : List Bool) :
    (∀ evs st2, handleRateLimit env st msg ffo fbo = .retry evs st2 →
      ∀ e ∈ evs, isToolStartEv e = false ∧ isToolCompleteEv e = false) ∧
    (∀ evs, handleRateLimit env st msg ffo fbo = .halt evs →
      ((∀ e ∈ evs, isToolStartEv e = false ∧ isToolCompleteEv e = false) ∧
        ∃ s, evs.getLast? = some (.error s))) := by
  cases hrc : rotate_credential st.creds st.provider with
  | none =>
    rw [handleRateLimit_eq_crash env st msg ffo fbo hrc]
    constructor
    · intro evs st2 h; cases h
    · intro evs h; cases h
  | some rc =>
    by_cases hok : rc.1 = true ∧ ffo = true
    · obtain ⟨h1, h2⟩ := hok
      obtain ⟨rot, cs⟩ := rc
      simp only at h1
      subst h1
      subst h2
      rw [handleRateLimit_eq_rotOk env st msg fbo cs hrc]
      constructor
      · intro evs st2 h
        injection h with h3 h4
        subst h3
        intro e he
        rcases List.mem_append.mp he with h5 | h5
        · exact rotEvs_plain st true e h5
        · simp only [List.mem_singleton] at h5
          subst h5
          exact ⟨rfl, rfl⟩
      · intro evs h; cases h
    · cases hp : env.pinned with
      | some pm =>
        rw [handleRateLimit_eq_pinned env st msg ffo fbo rc pm hrc hok hp]
        constructor
        · intro evs st2 h; cases h
        · intro evs h
          injection h with h1
          subst h1
          refine ⟨?_, ?_⟩
          · intro e he
            rcases List.mem_append.mp he with h5 | h5
            · exact rotEvs_plain st rc.1 e h5
            · simp only [List.mem_singleton] at h5
              subst h5
              exact ⟨rfl, rfl⟩
          · refine ⟨"Rate limit exceeded for your selected model (" ++
              st.provider ++ "). Please try another model or wait.", ?_⟩
            rw [List.getLast?_append_of_ne_nil _ (by simp)]
            rfl
      | none =>
        by_cases hlen : 1 < env.modelsChain.length
        · cases hfb : (fallbackScan env { st with creds := rc.2 } fbo
              (env.modelsChain.drop 1) 0).2 with
          | some st2 =>
            rw [handleRateLimit_eq_fallback_some env st msg ffo fbo rc st2 hrc hok hp hlen hfb]
            constructor
            · intro evs st3 h
              injection h with h3 h4
              subst h3
              intro e he
              rcases List.mem_append.mp he with h5 | h5
              · exact rotEvs_plain st rc.1 e h5
              · exact fallbackScan_plain env _ fbo _ 0 e h5
            · intro evs h; cases h
          | none =>
            rw [handleRateLimit_eq_fallback_none env st msg ffo fbo rc hrc hok hp hlen hfb]
            have hlast := fallbackScan_none_ends_error env
              { st with creds := rc.2 } fbo (env.modelsChain.drop 1) 0 hfb
            constructor
            · intro evs st3 h; cases h
            · intro evs h
              injection h with h1
              subst h1
              refine ⟨?_, ?_⟩
              · intro e he
                rcases List.mem_append.mp he with h5 | h5
                · exact rotEvs_plain st rc.1 e h5
                · exact fallbackScan_plain env _ fbo _ 0 e h5
              · refine ⟨"Rate limit exceeded on all providers. Please wait and try again.", ?_⟩
                rw [List.getLast?_append_of_ne_nil _ (by
                  intro hnil
                  rw [hnil] at hlast
                  cases hlast)]
                exact hlast
        · rw [handleRateLimit_eq_short_chain env st msg ffo fbo rc hrc hok hp hlen]
          constructor
          · intro evs st2 h; cases h
          · intro evs h
            injection h with h1
            subst h1
            refine ⟨?_, ?_⟩
            · intro e he
              rcases List.mem_append.mp he with h5 | h5
              · exact rotEvs_plain st rc.1 e h5
              · simp only [List.mem_singleton] at h5
                subst h5
                exact ⟨rfl, rfl⟩
            · refine ⟨"Rate limit exceeded: " ++ strTake msg 100, ?_⟩
              rw [List.getLast?_append_of_ne_nil _ (by simp)]
              rfl


lemma runLoop_max_events (env : LoopEnv) (script : List ModelOutcome) (st : LoopState)
    (h : st.iteration ≥ env.maxIterations) :
    (runLoop env script st).1 = [doneEvent st env st.iteration false true] := by
  rw [runLoop.eq_def]
  simp [h]

lemma runLoop_max_end (env : LoopEnv) (script : List ModelOutcome) (st : LoopState)
    (h : st.iteration ≥ env.maxIterations) :
    (runLoop env script st).2 = .finished := by
  rw [runLoop.eq_def]
  simp [h]

lemma runLoop_nil_events (env : LoopEnv) (st : LoopState)
    (h : ¬ st.iteration ≥ env.maxIterations) : (runLoop env [] st).1 = [] := by
  rw [runLoop.eq_def]
  simp [h]

lemma runLoop_nil_end (env : LoopEnv) (st : LoopState)
    (h : ¬ st.iteration ≥ env.maxIterations) :
    (runLoop env [] st).2 = .outOfScript := by
  rw [runLoop.eq_def]
  simp [h]

lemma runLoop_finalText_events (env : LoopEnv) (st : LoopState) (content : String)
    (rest : List ModelOutcome) (h : ¬ st.iteration ≥ env.maxIterations) :
    (runLoop env (.finalText content :: rest) st).1 =
      iterEvents env (st.iteration + 1) ++ chunkTokens content.data ++
        [doneEvent { st with iteration := st.iteration + 1 } env (st.iteration + 1)
          false false] := by
  rw [runLoop]
  simp [h]

lemma runLoop_finalText_end (env : LoopEnv) (st : LoopState) (content : String)
    (rest : List ModelOutcome) (h : ¬ st.iteration ≥ env.maxIterations) :
    (runLoop env (.finalText content :: rest) st).2 = .finished := by
  rw [runLoop]
  simp [h]

lemma runLoop_toolCalls_stop_events (env : LoopEnv) (st : LoopState)
    (calls : List ScriptToolCall) (rest : List ModelOutcome)
    (h : ¬ st.iteration ≥ env.maxIterations)
    (hstop : (processCalls env (st.iteration + 1) calls
      { st with iteration := st.iteration + 1 }).2.2 = true) :
    (runLoop env (.toolCalls calls :: rest) st).1 =
      iterEvents env (st.iteration + 1) ++
        (processCalls env (st.iteration + 1) calls
          { st with iteration := st.iteration + 1 }).1 := by
  rw [runLoop]
  simp [h, hstop]

lemma runLoop_toolCalls_stop_end (env : LoopEnv) (st : LoopState)
    (calls : List ScriptToolCall) (rest : List ModelOutcome)
    (h : ¬ st.iteration ≥ env.maxIterations)
    (hstop : (processCalls env (st.iteration + 1) calls
      { st with iteration := st.iteration + 1 }).2.2 = true) :
    (runLoop env (.toolCalls calls :: rest) st).2 = .finished := by
  rw [runLoop]
  simp [h, hstop]

lemma runLoop_toolCalls_go_events (env : LoopEnv) (st : LoopState)
    (calls : List ScriptToolCall) (rest : List ModelOutcome)
    (h : ¬ st.iteration ≥ env.maxIterations)
    (hstop : (processCalls env (st.iteration + 1) calls
      { st with iteration := st.iteration + 1 }).2.2 = false) :
    (runLoop env (.toolCalls calls :: rest) st).1 =
      iterEvents env (st.iteration + 1) ++
        (processCalls env (st.iteration + 1) calls
          { st with iteration := st.iteration + 1 }).1 ++
        (runLoop env rest (processCalls env (st.iteration + 1) calls
          { st with iteration := st.iteration + 1 }).2.1).1 := by
  rw [runLoop]
  simp [h, hstop]

lemma runLoop_toolCalls_go_end (env : LoopEnv) (st : LoopState)
    (calls : List ScriptToolCall) (rest : List ModelOutcome)
    (h : ¬ st.iteration ≥ env.maxIterations)
    (hstop : (processCalls env (st.iteration + 1) calls
      { st with iteration := st.iteration + 1 }).2.2 = false) :
    (runLoop env (.toolCalls calls :: rest) st).2 =
      (runLoop env rest (processCalls env (st.iteration + 1) calls
        { st with iteration := st.iteration + 1 }).2.1).2 := by
  rw [runLoop]
  simp [h, hstop]

lemma runLoop_exn_nolimit_events (env : LoopEnv) (st : LoopState) (msg : String)
    (ffo : Bool) (fbo : List Bool) (rest : List ModelOutcome)
    (h : ¬ st.iteration ≥ env.maxIterations) (hrl : isRateLimitMsg msg = false) :
    (runLoop env (.exn msg ffo fbo :: rest) st).1 =
      iterEvents env (st.iteration + 1) ++ [.error msg] := by
  rw [runLoop]
  simp [h, hrl]

lemma runLoop_exn_nolimit_end (env : LoopEnv) (st : LoopState) (msg : String)
    (ffo : Bool) (fbo : List Bool) (rest : List ModelOutcome)
    (h : ¬ st.iteration ≥ env.maxIterations) (hrl : isRateLimitMsg msg = false) :
    (runLoop env (.exn msg ffo fbo :: rest) st).2 = .finished := by
  rw [runLoop]
  simp [h, hrl]

lemma runLoop_exn_crash_events (env : LoopEnv) (st : LoopState) (msg : String)
    (ffo : Bool) (fbo : List Bool) (rest : List ModelOutcome)
    (h : ¬ st.iteration ≥ env.maxIterations) (hrl : isRateLimitMsg msg = true)
    (hhr : handleRateLimit env st msg ffo fbo = .crashed) :
    (runLoop env (.exn msg ffo fbo :: rest) st).1 =
      iterEvents env (st.iteration + 1) := by
  rw [runLoop]
  simp [h, hrl, hhr]

lemma runLoop_exn_crash_end (env : LoopEnv) (st : LoopState) (msg : String)
    (ffo : Bool) (fbo : List Bool) (rest : List ModelOutcome)
    (h : ¬ st.iteration ≥ env.maxIterations) (hrl : isRateLimitMsg msg = true)
    (hhr : handleRateLimit env st msg ffo fbo = .crashed) :
    (runLoop env (.exn msg ffo fbo :: rest) st).2 = .crashed := by
  rw [runLoop]
  simp [h, hrl, hhr]

lemma runLoop_exn_halt_events (env : LoopEnv) (st : LoopState) (msg : String)
    (ffo : Bool) (fbo : List Bool) (rest : List ModelOutcome)
    (evs : List StreamEvent)
    (h : ¬ st.iteration ≥ env.maxIterations) (hrl : isRateLimitMsg msg = true)
    (hhr : handleRateLimit env st msg ffo fbo = .halt evs) :
    (runLoop env (.exn msg ffo fbo :: rest) st).1 =
      iterEvents env (st.iteration + 1) ++ evs := by
  rw [runLoop]
  simp [h, hrl, hhr]

lemma runLoop_exn_halt_end (env : LoopEnv) (st : LoopState) (msg : String)
    (ffo : Bool) (fbo : List Bool) (rest : List ModelOutcome)
    (evs : List StreamEvent)
    (h : ¬ st.iteration ≥ env.maxIterations) (hrl : isRateLimitMsg msg = true)
    (hhr : handleRateLimit env st msg ffo fbo = .halt evs) :
    (runLoop env (.exn msg ffo fbo :: rest) st).2 = .finished := by
  rw [runLoop]
  simp [h, hrl, hhr]

lemma runLoop_exn_retry_events (env : LoopEnv) (st : LoopState) (msg : String)
    (ffo : Bool) (fbo : List Bool) (rest : List ModelOutcome)
    (evs : List StreamEvent) (st2 : LoopState)
    (h : ¬ st.iteration ≥ env.maxIterations) (hrl : isRateLimitMsg msg = true)
    (hhr : handleRateLimit env st msg ffo fbo = .retry evs st2) :
    (runLoop env (.exn msg ffo fbo :: rest) st).1 =
      iterEvents env (st.iteration + 1) ++ evs ++ (runLoop env rest st2).1 := by
  rw [runLoop]
  simp [h, hrl, hhr]

lemma runLoop_exn_retry_end (env : LoopEnv) (st : LoopState) (msg : String)
    (ffo : Bool) (fbo : List Bool) (rest : List ModelOutcome)
    (evs : List StreamEvent) (st2 : LoopState)
    (h : ¬ st.iteration ≥ env.maxIterations) (hrl : isRateLimitMsg msg = true)
    (hhr : handleRateLimit env st msg ffo fbo = .retry evs st2) :
    (runLoop env (.exn msg ffo fbo :: rest) st).2 = (runLoop env rest st2).2 := by
  rw [runLoop]
  simp [h, hrl, hhr]


lemma runLoop_spec (env : LoopEnv) :
    ∀ (script : List ModelOutcome) (st : LoopState),
      wellPaired (toolEvents (runLoop env script st).1) = true ∧
      ((runLoop env script st).2 = .finished →
        endsDoneOrError (runLoop env script st).1 = true) := by
  intro script
  induction script with
  | nil =>
    intro st
    by_cases hge : st.iteration ≥ env.maxIterations
    · rw [runLoop_max_events env [] st hge, runLoop_max_end env [] st hge]
      exact ⟨rfl, fun _ => rfl⟩
    · rw [runLoop_nil_events env st hge, runLoop_nil_end env st hge]
      exact ⟨rfl, fun hc => by cases hc⟩
  | cons o rest ih =>
    intro st
    by_cases hge : st.iteration ≥ env.maxIterations
    · rw [runLoop_max_events env (o :: rest) st hge, runLoop_max_end env (o :: rest) st hge]
      exact ⟨rfl, fun _ => rfl⟩
    · cases o with
      | finalText content =>
        rw [runLoop_finalText_events env st content rest hge,
          runLoop_finalText_end env st content rest hge]
        constructor
        · rw [toolEvents_append, toolEvents_append, toolEvents_iterEvents,
            toolEvents_chunkTokens]
          rfl
        · intro _
          apply endsDoneOrError_append
          rfl
      | toolCalls calls =>
        by_cases hstop : (processCalls env (st.iteration + 1) calls
            { st with iteration := st.iteration + 1 }).2.2 = true
        · rw [runLoop_toolCalls_stop_events env st calls rest hge hstop,
            runLoop_toolCalls_stop_end env st calls rest hge hstop]
          constructor
          · rw [toolEvents_append, toolEvents_iterEvents, List.nil_append]
            exact processCalls_paired env _ calls _
          · intro _
            apply endsDoneOrError_append
            exact endsDoneOrError_of_getLast_done (processCalls_stop_last env _ calls _ hstop)
        · have hstop2 : (processCalls env (st.iteration + 1) calls
              { st with iteration := st.iteration + 1 }).2.2 = false := by
            simpa using hstop
          rw [runLoop_toolCalls_go_events env st calls rest hge hstop2,
            runLoop_toolCalls_go_end env st calls rest hge hstop2]
          obtain ⟨ihw, ihe⟩ := ih (processCalls env (st.iteration + 1) calls
            { st with iteration := st.iteration + 1 }).2.1
          constructor
          · rw [toolEvents_append, toolEvents_append, toolEvents_iterEvents,
              List.nil_append]
            exact wellPaired_append _ _ (processCalls_paired env _ calls _) ihw
          · intro hf
            exact endsDoneOrError_append _ _ (ihe hf)
      | exn msg ffo fbo =>
        by_cases hrl : isRateLimitMsg msg = true
        · cases hhr : handleRateLimit env st msg ffo fbo with
          | crashed =>
            rw [runLoop_exn_crash_events env st msg ffo fbo rest hge hrl hhr,
              runLoop_exn_crash_end env st msg ffo fbo rest hge hrl hhr]
            constructor
            · rw [toolEvents_iterEvents]
              rfl
            · intro hc
              cases hc
          | halt evs =>
            rw [runLoop_exn_halt_events env st msg ffo fbo rest evs hge hrl hhr,
              runLoop_exn_halt_end env st msg ffo fbo rest evs hge hrl hhr]
            have hplain := (handleRateLimit_cases env st msg ffo fbo).2 evs hhr
            constructor
            · rw [toolEvents_append, toolEvents_iterEvents, List.nil_append,
                toolEvents_nil_of_plain evs hplain.1]
              rfl
            · intro _
              obtain ⟨s, hs⟩ := hplain.2
              exact endsDoneOrError_append _ _ (endsDoneOrError_of_getLast_error hs)
          | retry evs st2 =>
            rw [runLoop_exn_retry_events env st msg ffo fbo rest evs st2 hge hrl hhr,
              runLoop_exn_retry_end env st msg ffo fbo rest evs st2 hge hrl hhr]
            have hplain := (handleRateLimit_cases env st msg ffo fbo).1 evs st2 hhr
            obtain ⟨ihw, ihe⟩ := ih st2
            constructor
            · rw [toolEvents_append, toolEvents_append, toolEvents_iterEvents,
                List.nil_append, toolEvents_nil_of_plain evs hplain, List.nil_append]
              exact ihw
            · intro hf
              exact endsDoneOrError_append _ _ (ihe hf)
        · have hrl2 : isRateLimitMsg msg = false := by simpa using hrl
          rw [runLoop_exn_nolimit_events env st msg ffo fbo rest hge hrl2,
            runLoop_exn_nolimit_end env st msg ffo fbo rest hge hrl2]
          constructor
          · rw [toolEvents_append, toolEvents_iterEvents]
            rfl
          · intro _
            apply endsDoneOrError_append
            rfl


lemma sseStream_events_finished (env : LoopEnv) (script : List ModelOutcome)
    (st : LoopState) (h : (runLoop env script st).2 = .finished) :
    (sseStream env script st).1 =
      StreamEvent.classification env.taskType :: (runLoop env script st).1 := by
  simp only [sseStream, h]

lemma sseStream_events_crashed (env : LoopEnv) (script : List ModelOutcome)
    (st : LoopState) (h : (runLoop env script st).2 = .crashed) :
    (sseStream env script st).1 =
      (StreamEvent.classification env.taskType :: (runLoop env script st).1) ++
        [.error "integer division or modulo by zero"] := by
  simp only [sseStream, h]

lemma sseStream_covered_outOfScript (env : LoopEnv) (script : List ModelOutcome)
    (st : LoopState) (h : (runLoop env script st).2 = .outOfScript) :
    (sseStream env script st).2 = false := by
  simp only [sseStream, h]

/-- **C2.** For every request processed by the streaming orchestrator — any
environment, any model script fully covering the run, any starting state —
the emitted SSE event sequence has exactly as many `tool_complete` events as
`tool_start` events, the tool lifecycle subsequence alternates each
`tool_start` with its matching `tool_complete` for the same tool, and the
final event is of type `done` or `error`. -/
theorem c2_stream_pairing (env : LoopEnv) (script : List ModelOutcome)
    (st : LoopState) (hcov : (sseStream env script st).2 = true) :
    (sseStream env script st).1.countP isToolStartEv =
      (sseStream env script st).1.countP isToolCompleteEv ∧
    wellPaired (toolEvents (sseStream env script st).1) = true ∧
    endsDoneOrError (sseStream env script st).1 = true := by
  cases hr2 : (runLoop env script st).2 with
  | outOfScript =>
    rw [sseStream_covered_outOfScript env script st hr2] at hcov
    cases hcov
  | finished =>
    obtain ⟨hwp, hfin⟩ := runLoop_spec env script st
    have hend := hfin hr2
    rw [sseStream_events_finished env script st hr2]
    have hwp2 : wellPaired (toolEvents
        (StreamEvent.classification env.taskType :: (runLoop env script st).1)) = true := by
      unfold toolEvents
      rw [List.filter_cons_of_neg (by simp [isToolStartEv, isToolCompleteEv])]
      exact hwp
    refine ⟨counts_of_wellPaired_toolEvents _ hwp2, hwp2, ?_⟩
    have hsplit : StreamEvent.classification env.taskType :: (runLoop env script st).1 =
        [StreamEvent.classification env.taskType] ++ (runLoop env script st).1 := rfl
    rw [hsplit]
    exact endsDoneOrError_append _ _ hend
  | crashed =>
    obtain ⟨hwp, _⟩ := runLoop_spec env script st
    rw [sseStream_events_crashed env script st hr2]
    have hwp2 : wellPaired (toolEvents
        ((StreamEvent.classification env.taskType :: (runLoop env script st).1) ++
          [.error "integer division or modulo by zero"])) = true := by
      rw [toolEvents_append]
      have h1 : toolEvents [StreamEvent.error "integer division or modulo by zero"] = [] := rfl
      rw [h1, List.append_nil]
      unfold toolEvents
      rw [List.filter_cons_of_neg (by simp [isToolStartEv, isToolCompleteEv])]
      exact hwp
    refine ⟨counts_of_wellPaired_toolEvents _ hwp2, hwp2, ?_⟩
    exact endsDoneOrError_append _ _ rfl

theorem c2_stream_pairing_witness :
    (sseStream c2Env c2Script c2St).2 = true ∧
    ((sseStream c2Env c2Script c2St).1.countP isToolStartEv =
       (sseStream c2Env c2Script c2St).1.countP isToolCompleteEv ∧
     wellPaired (toolEvents (sseStream c2Env c2Script c2St).1) = true ∧
     endsDoneOrError (sseStream c2Env c2Script c2St).1 = true) :=
  ⟨by decide, c2_stream_pairing c2Env c2Script c2St (by decide)⟩


/-- **C3.** When a model invocation fails with a rate-limit signal (text
containing `429`, `rate limit` or `quota`), the loop first rotates
credentials within the current provider: (1) on successful rotation and
model re-fetch it announces the new key and retries the remaining script
with the *same* provider and the *same* iteration counter, only the
credential store updated; (2) if the model was pinned it never switches
provider and the events end in the terminal pinned-model `error`;
(3) if rotation did not yield a usable key and the request is in Auto mode,
it advances to the next entry of the fallback chain and retries with that
provider and its resolved model, again at the same iteration counter. -/
theorem c3_rate_limit (env : LoopEnv) (st : LoopState) (msg : String)
    (ffo : Bool) (fbo : List Bool) (rest : List ModelOutcome)
    (hmsg : isRateLimitMsg msg = true)
    (hit : st.iteration < env.maxIterations) :
    (∀ cs, rotate_credential st.creds st.provider = some (true, cs) → ffo = true →
      handleRateLimit env st msg ffo fbo =
        .retry [.message ("⚠️ Rate limit hit. Trying next API key for " ++
            st.provider ++ "..."),
          .message ("✓ Using next API key for " ++ st.provider)]
          { st with creds := cs } ∧
      (runLoop env (.exn msg ffo fbo :: rest) st).1 =
        iterEvents env (st.iteration + 1) ++
          [.message ("⚠️ Rate limit hit. Trying next API key for " ++
            st.provider ++ "..."),
           .message ("✓ Using next API key for " ++ st.provider)] ++
          (runLoop env rest { st with creds := cs }).1 ∧
      (runLoop env (.exn msg ffo fbo :: rest) st).2 =
        (runLoop env rest { st with creds := cs }).2) ∧
    (∀ rc pm, rotate_credential st.creds st.provider = some rc →
      ¬ (rc.1 = true ∧ ffo = true) → env.pinned = some pm →
      ∃ evs, handleRateLimit env st msg ffo fbo = .halt evs ∧
        evs.getLast? = some (.error ("Rate limit exceeded for your selected model (" ++
          st.provider ++ "). Please try another model or wait.")) ∧
        (runLoop env (.exn msg ffo fbo :: rest) st).1 =
          iterEvents env (st.iteration + 1) ++ evs ∧
        (runLoop env (.exn msg ffo fbo :: rest) st).2 = .finished) ∧
    (∀ rc c0 p k chainRest, rotate_credential st.creds st.provider = some rc →
      ¬ (rc.1 = true ∧ ffo = true) → env.pinned = none →
      env.modelsChain = c0 :: (p, k) :: chainRest → fbo.getD 0 false = true →
      ∃ evs, handleRateLimit env st msg ffo fbo =
          .retry evs
            { st with creds := rc.2, provider := p, modelName := env.resolveName p k } ∧
        (runLoop env (.exn msg ffo fbo :: rest) st).1 =
          iterEvents env (st.iteration + 1) ++ evs ++
            (runLoop env rest
              { st with creds := rc.2, provider := p, modelName := env.resolveName p k }).1 ∧
        (runLoop env (.exn msg ffo fbo :: rest) st).2 =
          (runLoop env rest
            { st with creds := rc.2, provider := p, modelName := env.resolveName p k }).2) := by
  have hge : ¬ st.iteration ≥ env.maxIterations := by omega
  refine ⟨?_, ?_, ?_⟩
  · intro cs hrc hffo
    subst hffo
    have hhr : handleRateLimit env st msg true fbo =
        .retry [.message ("⚠️ Rate limit hit. Trying next API key for " ++
            st.provider ++ "..."),
          .message ("✓ Using next API key for " ++ st.provider)]
          { st with creds := cs } := by
      rw [handleRateLimit_eq_rotOk env st msg fbo cs hrc]
      rfl
    exact ⟨hhr,
      runLoop_exn_retry_events env st msg true fbo rest _ _ hge hmsg hhr,
      runLoop_exn_retry_end env st msg true fbo rest _ _ hge hmsg hhr⟩
  · intro rc pm hrc hok hp
    have hhr := handleRateLimit_eq_pinned env st msg ffo fbo rc pm hrc hok hp
    refine ⟨_, hhr, ?_, ?_, ?_⟩
    · rw [List.getLast?_append_of_ne_nil _ (by simp)]
      rfl
    · exact runLoop_exn_halt_events env st msg ffo fbo rest _ hge hmsg hhr
    · exact runLoop_exn_halt_end env st msg ffo fbo rest _ hge hmsg hhr
  · intro rc c0 p k chainRest hrc hok hp hchain hfb0
    have hlen : 1 < env.modelsChain.length := by
      rw [hchain]
      simp only [List.length_cons]
      omega
    have hdrop : env.modelsChain.drop 1 = (p, k) :: chainRest := by
      rw [hchain]
      rfl
    have hfs := fallbackScan_first_ok env { st with creds := rc.2 } fbo p k chainRest 0 hfb0
    have h2 : (fallbackScan env { st with creds := rc.2 } fbo
        (env.modelsChain.drop 1) 0).2 =
        some
          { st with creds := rc.2, provider := p, modelName := env.resolveName p k } := by
      rw [hdrop, hfs]
    have hhr := handleRateLimit_eq_fallback_some env st msg ffo fbo rc _ hrc hok hp hlen h2
    exact ⟨_, hhr,
      runLoop_exn_retry_events env st msg ffo fbo rest _ _ hge hmsg hhr,
      runLoop_exn_retry_end env st msg ffo fbo rest _ _ hge hmsg hhr⟩

theorem c3_rate_limit_witness :
    isRateLimitMsg "429 Too Many Requests" = true ∧
    c3St.iteration < c3Env.maxIterations ∧
    rotate_credential c3St.creds c3St.provider = some (true, c3CredsRot) ∧
    (handleRateLimit c3Env c3St "429 Too Many Requests" true [] =
        .retry [.message ("⚠️ Rate limit hit. Trying next API key for " ++
            c3St.provider ++ "..."),
          .message ("✓ Using next API key for " ++ c3St.provider)]
          { c3St with creds := c3CredsRot } ∧
      (runLoop c3Env [.exn "429 Too Many Requests" true []] c3St).1 =
        iterEvents c3Env (c3St.iteration + 1) ++
          [.message ("⚠️ Rate limit hit. Trying next API key for " ++
            c3St.provider ++ "..."),
           .message ("✓ Using next API key for " ++ c3St.provider)] ++
          (runLoop c3Env [] { c3St with creds := c3CredsRot }).1 ∧
      (runLoop c3Env [.exn "429 Too Many Requests" true []] c3St).2 =
        (runLoop c3Env [] { c3St with creds := c3CredsRot }).2) :=
  ⟨by decide, by decide, by decide,
   (c3_rate_limit c3Env c3St "429 Too Many Requests" true [] []
       (by decide) (by decide)).1 c3CredsRot (by decide) rfl⟩


lemma takeLastPy_eq_drop {α : Type} (l : List α) (n : Nat) (hn : ¬ n = 0) :
    takeLastPy l n = l.drop (l.length - n) := if_neg hn

lemma takeLastPy_small {α : Type} (l : List α) (n : Nat) (h : l.length ≤ n) :
    takeLastPy l n = l := by
  unfold takeLastPy
  split
  · rfl
  · have h0 : l.length - n = 0 := by omega
    rw [h0, List.drop_zero]

lemma takeLastPy_drop_one {α : Type} (l : List α) (n : Nat) (hn : ¬ n = 0)
    (h : n + 1 ≤ l.length) : takeLastPy (l.drop 1) n = takeLastPy l n := by
  rw [takeLastPy_eq_drop _ _ hn, takeLastPy_eq_drop _ _ hn, List.length_drop,
    List.drop_drop]
  congr 1
  omega

lemma takeLastPy_takeLastPy {α : Type} (l : List α) (m n : Nat)
    (hm : ¬ m = 0) (hn : ¬ n = 0) (h : n ≤ m) :
    takeLastPy (takeLastPy l m) n = takeLastPy l n := by
  rw [takeLastPy_eq_drop _ _ hm, takeLastPy_eq_drop _ _ hn, takeLastPy_eq_drop _ _ hn,
    List.length_drop, List.drop_drop]
  congr 1
  omega

lemma takeLastPy_length {α : Type} (l : List α) (n : Nat) (hn : ¬ n = 0) :
    (takeLastPy l n).length = min l.length n := by
  rw [takeLastPy_eq_drop _ _ hn, List.length_drop]
  omega

lemma addCall_foldl_window :
    ∀ (sigs : List CallSig) (pre : List CallSig), pre.length ≤ 5 →
      (sigs.foldl LoopDetector.addCall ⟨pre, 5, 3⟩).history = takeLastPy (pre ++ sigs) 5 ∧
      (sigs.foldl LoopDetector.addCall ⟨pre, 5, 3⟩).windowSize = 5 ∧
      (sigs.foldl LoopDetector.addCall ⟨pre, 5, 3⟩).threshold = 3 := by
  intro sigs
  induction sigs with
  | nil =>
    intro pre hpre
    refine ⟨?_, rfl, rfl⟩
    rw [List.append_nil]
    exact (takeLastPy_small pre 5 hpre).symm
  | cons s t ih =>
    intro pre hpre
    rw [List.foldl_cons]
    have haddc : LoopDetector.addCall ⟨pre, 5, 3⟩ s =
        ⟨if (pre ++ [s]).length > 5 then (pre ++ [s]).drop 1 else pre ++ [s], 5, 3⟩ := rfl
    by_cases hlen : (pre ++ [s]).length > 5
    · rw [haddc, if_pos hlen]
      have hlen2 : pre.length + 1 > 5 := by
        rw [List.length_append, List.length_singleton] at hlen
        exact hlen
      obtain ⟨ih1, ih2, ih3⟩ := ih ((pre ++ [s]).drop 1) (by
        simp only [List.length_drop, List.length_append, List.length_singleton]
        omega)
      refine ⟨?_, ih2, ih3⟩
      rw [ih1]
      have hsplit : (pre ++ [s]).drop 1 ++ t = ((pre ++ [s]) ++ t).drop 1 :=
        (List.drop_append_of_le_length (by
          simp only [List.length_append, List.length_singleton]
          omega)).symm
      rw [hsplit]
      have hassoc : (pre ++ [s]) ++ t = pre ++ (s :: t) := by simp
      rw [hassoc]
      exact takeLastPy_drop_one _ 5 (by omega) (by
        simp only [List.length_append, List.length_cons]
        omega)
    · rw [haddc, if_neg hlen]
      have hlen2 : pre.length + 1 ≤ 5 := by
        rw [List.length_append, List.length_singleton] at hlen
        omega
      obtain ⟨ih1, ih2, ih3⟩ := ih (pre ++ [s]) (by
        simp only [List.length_append, List.length_singleton]
        omega)
      refine ⟨?_, ih2, ih3⟩
      rw [ih1]
      congr 1
      simp

lemma runDetector_history (sigs : List CallSig) :
    (runDetector sigs).history = takeLastPy sigs 5 := by
  have h := (addCall_foldl_window sigs [] (by simp)).1
  rw [List.nil_append] at h
  exact h

lemma runDetector_threshold (sigs : List CallSig) :
    (runDetector sigs).threshold = 3 :=
  (addCall_foldl_window sigs [] (by simp)).2.2

lemma dedup3_iff (a b c : CallSig) :
    ([a, b, c].dedup.length = 1) ↔ (a = b ∧ b = c) := by
  have hsing : ∀ x : CallSig, [x].dedup = [x] := fun x => by
    rw [List.dedup_cons_of_not_mem (List.not_mem_nil x)]
    rfl
  by_cases hbc : b = c
  · subst hbc
    by_cases hab : a = b
    · subst hab
      rw [List.dedup_cons_of_mem (by simp), List.dedup_cons_of_mem (by simp), hsing]
      simp
    · rw [List.dedup_cons_of_not_mem (by simp [hab]),
        List.dedup_cons_of_mem (by simp), hsing]
      simp [hab]
  · have h2 : ([b, c] : List CallSig).dedup = [b, c] := by
      rw [List.dedup_cons_of_not_mem (by simp [hbc]), hsing]
    by_cases ha : a ∈ ([b, c] : List CallSig)
    · rw [List.dedup_cons_of_mem ha, h2]
      simp [hbc]
    · rw [List.dedup_cons_of_not_mem ha, h2]
      simp [hbc]

lemma list_eq_three_of_length {α : Type} (l : List α) (h : l.length = 3) :
    ∃ a b c, l = [a, b, c] := by
  cases l with
  | nil =>
    exfalso
    rw [List.length_nil] at h
    omega
  | cons a l1 =>
    cases l1 with
    | nil =>
      exfalso
      rw [List.length_cons, List.length_nil] at h
      omega
    | cons b l2 =>
      cases l2 with
      | nil =>
        exfalso
        rw [List.length_cons, List.length_cons, List.length_nil] at h
        omega
      | cons c l3 =>
        cases l3 with
        | nil => exact ⟨a, b, c, rfl⟩
        | cons d l4 =>
          exfalso
          rw [List.length_cons, List.length_cons, List.length_cons,
            List.length_cons] at h
          omega

lemma dedup_len3_iff (l : List CallSig) (h : l.length = 3) :
    l.dedup.length = 1 ↔ ∃ s, l = [s, s, s] := by
  obtain ⟨a, b, c, rfl⟩ := list_eq_three_of_length l h
  rw [dedup3_iff]
  constructor
  · rintro ⟨rfl, rfl⟩
    exact ⟨a, rfl⟩
  · rintro ⟨s, hs⟩
    simp only [List.cons.injEq, and_true] at hs
    obtain ⟨h1, h2, h3⟩ := hs
    exact ⟨h1.trans h2.symm, h2.trans h3.symm⟩

lemma runDetector_isLooping_iff (sigs : List CallSig) :
    (runDetector sigs).isLooping = true ↔
      (3 ≤ sigs.length ∧ ∃ s, takeLastPy sigs 3 = [s, s, s]) := by
  unfold LoopDetector.isLooping
  rw [runDetector_history, runDetector_threshold,
    takeLastPy_takeLastPy sigs 5 3 (by omega) (by omega) (by omega)]
  have hl5 : (takeLastPy sigs 5).length = min sigs.length 5 :=
    takeLastPy_length sigs 5 (by omega)
  by_cases hlen : sigs.length < 3
  · have hsm : (takeLastPy sigs 5).length < 3 := by
      rw [hl5]
      omega
    rw [if_pos hsm]
    simp only [Bool.false_eq_true, false_iff, not_and]
    intro h3
    omega
  · have hsm : ¬ (takeLastPy sigs 5).length < 3 := by
      rw [hl5]
      omega
    rw [if_neg hsm, decide_eq_true_eq]
    have hlen3 : (takeLastPy sigs 3).length = 3 := by
      rw [takeLastPy_length sigs 3 (by omega)]
      omega
    rw [dedup_len3_iff _ hlen3]
    have h3 : 3 ≤ sigs.length := by omega
    simp [h3]


/-- **C6.** The loop detector keeps a sliding window of the last 5 tool-call
signatures; it declares a loop exactly when at least 3 calls were recorded
and the last 3 signatures are identical (so with fewer than 3 recorded calls
it never fires); and when it fires during the streaming loop, the repeated
call is not executed (no events for it, `executedNames` unchanged) and the
run ends immediately with a `done` event carrying `loop_detected = true`. -/
theorem c6_loop_detector :
    (∀ sigs : List CallSig, (runDetector sigs).history = takeLastPy sigs 5) ∧
    (∀ sigs : List CallSig, (runDetector sigs).isLooping = true ↔
      (3 ≤ sigs.length ∧ ∃ s, takeLastPy sigs 3 = [s, s, s])) ∧
    (∀ sigs : List CallSig, sigs.length < 3 → (runDetector sigs).isLooping = false) ∧
    (∀ (env : LoopEnv) (it : Nat) (c : ScriptToolCall) (rest : List ScriptToolCall)
        (st : LoopState),
      (st.detector.addCall (callSig c.name c.args)).isLooping = true →
      (processCalls env it (c :: rest) st).1 =
        [.message "⚠️ Detected repetitive actions. Stopping to avoid infinite loop.",
         doneEvent { st with detector := st.detector.addCall (callSig c.name c.args) }
           env it true false] ∧
      (processCalls env it (c :: rest) st).2.1.executedNames = st.executedNames ∧
      (processCalls env it (c :: rest) st).2.2 = true) ∧
    (∀ (env : LoopEnv) (calls : List ScriptToolCall) (rest : List ModelOutcome)
        (st : LoopState),
      st.iteration < env.maxIterations →
      (processCalls env (st.iteration + 1) calls
        { st with iteration := st.iteration + 1 }).2.2 = true →
      (runLoop env (.toolCalls calls :: rest) st).2 = .finished ∧
      ∃ e, (runLoop env (.toolCalls calls :: rest) st).1.getLast? = some e ∧
        isLoopDoneEv e = true) := by
  refine ⟨runDetector_history, runDetector_isLooping_iff, ?_, ?_, ?_⟩
  · intro sigs hlen
    cases hb : (runDetector sigs).isLooping
    · rfl
    · exfalso
      obtain ⟨h3, _⟩ := (runDetector_isLooping_iff sigs).mp hb
      omega
  · intro env it c rest st hl
    have key : processCalls env it (c :: rest) st =
        ([.message "⚠️ Detected repetitive actions. Stopping to avoid infinite loop.",
          doneEvent { st with detector := st.detector.addCall (callSig c.name c.args) }
            env it true false],
         { st with detector := st.detector.addCall (callSig c.name c.args) }, true) := by
      simp only [processCalls, hl, if_true]
    rw [key]
    exact ⟨rfl, rfl, rfl⟩
  · intro env calls rest st hit hstop
    have hge : ¬ st.iteration ≥ env.maxIterations := by omega
    refine ⟨runLoop_toolCalls_stop_end env st calls rest hge hstop, ?_⟩
    refine ⟨doneEvent (processCalls env (st.iteration + 1) calls
      { st with iteration := st.iteration + 1 }).2.1 env (st.iteration + 1) true false,
      ?_, rfl⟩
    rw [runLoop_toolCalls_stop_events env st calls rest hge hstop]
    have hlast := processCalls_stop_last env (st.iteration + 1) calls _ hstop
    rw [List.getLast?_append_of_ne_nil _ (by
      intro hnil
      rw [hnil] at hlast
      cases hlast)]
    exact hlast

theorem c6_loop_detector_witness :
    (runDetector [c6Sig, c6Sig, c6Sig]).history = takeLastPy [c6Sig, c6Sig, c6Sig] 5 ∧
    (runDetector [c6Sig, c6Sig, c6Sig]).isLooping = true ∧
    (runDetector [c6Sig]).isLooping = false ∧
    (processCalls c2Env 2 [⟨"read_file", [("path", "a")], "ok"⟩] c6St).2.1.executedNames =
      c6St.executedNames ∧
    (processCalls c2Env 2 [⟨"read_file", [("path", "a")], "ok"⟩] c6St).2.2 = true :=
  ⟨c6_loop_detector.1 [c6Sig, c6Sig, c6Sig],
   (c6_loop_detector.2.1 [c6Sig, c6Sig, c6Sig]).mpr ⟨by decide, c6Sig, by decide⟩,
   c6_loop_detector.2.2.1 [c6Sig] (by decide),
   (c6_loop_detector.2.2.2.1 c2Env 2 ⟨"read_file", [("path", "a")], "ok"⟩ [] c6St
     (by decide)).2.1,
   (c6_loop_detector.2.2.2.1 c2Env 2 ⟨"read_file", [("path", "a")], "ok"⟩ [] c6St
     (by decide)).2.2⟩

end Quasar
